import Mathlib

/-!
Shallow embedding of `be/src/runtime/local_tablets_channel.cpp`
(StarRocks local tablets channel): the sliding-window deduplication of
`LocalTabletsChannel::add_chunk`, the row-scatter of
`LocalTabletsChannel::_create_write_context`, the sorted tablet index of
`LocalTabletsChannel::_open_all_writers`, and the close/commit decision of
`LocalTabletsChannel::_close_sender` together with the commit/abort loop in
`add_chunk`.

Machine integers: `packet_seq`, tablet ids and partition ids are `int64_t`
in the source and are modelled as `Int` (no arithmetic anywhere near
overflow is performed by the modelled code paths); array indexes and sizes
are modelled as `Nat`.
-/

namespace LocalTabletsChannel

/-- Response status codes used by the channel
(subset of `TStatusCode` that this file produces). -/
inductive TStatusCode where
  | OK
  | INVALID_ARGUMENT
  | DUPLICATE_RPC_INVOCATION
  | INTERNAL_ERROR
deriving DecidableEq, Repr

/-! ## Sender slot (sliding-window deduplication state)

The `Sender` struct lives in `local_tablets_channel.h` (not part of the
sources); its three fields are taken from their uses in
`local_tablets_channel.cpp`: `receive_sliding_window` and
`success_sliding_window` are `std::set<int64_t>` (so: finite sets of
sequence numbers whose `cbegin()` is the minimum) and
`last_sliding_packet_seq` is an `int64_t`. -/

structure Sender where
  receive_sliding_window : Finset Int
  success_sliding_window : Finset Int
  last_sliding_packet_seq : Int
deriving DecidableEq

/-- Modelled from the spec: the initial sender slot.  The header with the
field initializers is not part of the sources; the spec's scenario
"sender 0 sends seq=0..4" requires `seq = 0` to be admissible
(`0 > lastContiguousSeq`), so the windows start empty and
`lastContiguousSeq` starts at `-1`. -/
def Sender.init : Sender :=
  { receive_sliding_window := ∅
    success_sliding_window := ∅
    last_sliding_packet_seq := -1 }

instance : Inhabited Sender := ⟨Sender.init⟩

/-- One test-and-prune step of the success-window pruning loop body
(`add_chunk`, the block guarded by
`last_sliding_packet_seq + 1 == *last_success_iter &&
*last_success_iter == *last_receive_iter`): when the smallest elements of
both windows equal `last_sliding_packet_seq + 1`, erase them from both
windows and advance `last_sliding_packet_seq`; otherwise do nothing. -/
def pruneIter (s : Sender) : Sender :=
  match s.success_sliding_window.min, s.receive_sliding_window.min with
  | some a, some b =>
    if s.last_sliding_packet_seq + 1 = a ∧ a = b then
      { receive_sliding_window := s.receive_sliding_window.erase b
        success_sliding_window := s.success_sliding_window.erase a
        last_sliding_packet_seq := s.last_sliding_packet_seq + 1 }
    else s
  | _, _ => s

/-- The pruning `while` loop of `add_chunk`
(`while (success_sliding_window.size() > _max_sliding_window_size / 2)`),
modelled with explicit fuel: `pruneLoop W fuel s` performs up to `fuel`
iterations of the guarded body.  The C++ loop terminates with result `r`
exactly when some finite fuel reaches a state `r` falsifying the guard;
a state `s` with `W / 2 < s.success_sliding_window.card` and
`pruneIter s = s` makes the C++ loop run forever. -/
def pruneLoop (W : Nat) : Nat → Sender → Sender
  | 0, s => s
  | fuel + 1, s =>
    if W / 2 < s.success_sliding_window.card then pruneLoop W fuel (pruneIter s) else s

/-- The success-window update at the end of `add_chunk`: insert the packet
sequence into `success_sliding_window`, then run the pruning loop. -/
def completeUpdate (W fuel : Nat) (seq : Int) (s : Sender) : Sender :=
  pruneLoop W fuel
    { s with success_sliding_window := insert seq s.success_sliding_window }

/-! ## Sorted tablet index and row scatter -/

/-- The sorted tablet-id vector of `_open_all_writers`
(`std::sort(tablet_ids.begin(), tablet_ids.end())`). -/
def sortedTabletIds (tablets : List Int) : List Int :=
  tablets.insertionSort (· ≤ ·)

/-- Lookup in `_tablet_id_to_sorted_indexes`: the map is populated by
`emplace(tablet_ids[i], i)` over the sorted vector, so a tablet id maps to
the first position at which it occurs in the sorted vector. -/
def indexInSorted : List Int → Int → Option Nat
  | [], _ => none
  | x :: xs, id => if x = id then some 0 else (indexInSorted xs id).map (· + 1)

/-- `_tablet_id_to_sorted_indexes` as a partial map from tablet id to
sorted ordinal. -/
def tabletIdToSortedIndex (tablets : List Int) (id : Int) : Option Nat :=
  indexInSorted (sortedTabletIds tablets) id

/-- `_tablet_id_to_sorted_indexes.size()`: the number of distinct tablet
ids (`emplace` ignores duplicate keys). -/
def channelSize (tablets : List Int) : Nat :=
  tablets.toFinset.card

/-- The per-row channel ordinal used by `_create_write_context`.  The
counting pass reads the map with `operator[]`, which value-initializes a
missing key to ordinal `0` (and the reverse pass's `find` then succeeds on
the inserted entry), so the lookup is total with default `0`. -/
def chunkOrd (tablets tabletIds : List Int) (i : Nat) : Nat :=
  (tabletIdToSortedIndex tablets (tabletIds.getD i 0)).getD 0

/-- Pointwise array update; the raw `uint32_t[]` buffers of the write
context are modelled as functions `Nat → Nat`. -/
def upd (f : Nat → Nat) (i v : Nat) : Nat → Nat :=
  fun j => if j = i then v else f j

/-- The counting pass of `_create_write_context`
(`for i in [0, rows): channel_row_idx_start_points[ordinal(i)]++`),
starting from the value-initialized (all-zero) buffer;
`countPass ord n` is the state after processing rows `0 .. n-1`. -/
def countPass (ord : Nat → Nat) : Nat → (Nat → Nat)
  | 0 => fun _ => 0
  | n + 1 => upd (countPass ord n) (ord n) (countPass ord n (ord n) + 1)

/-- The prefix-sum pass of `_create_write_context`
(`for i in [1, channel_size]: sp[i] += sp[i-1]`); `prefixPass sp k` is the
state after processing indexes `1 .. k`. -/
def prefixPass (sp : Nat → Nat) : Nat → (Nat → Nat)
  | 0 => sp
  | k + 1 => upd (prefixPass sp k) (k + 1) (prefixPass sp k (k + 1) + prefixPass sp k k)

/-- The reverse scatter pass of `_create_write_context`
(`for i = rows-1 downto 0: row_indexes[sp[ordinal(i)] - 1] = i;
sp[ordinal(i)]--`).  `scatterPass ord m st` processes rows
`m-1, m-2, ..., 0` (highest first), matching the reverse iteration with
pre-decrement; the state is `(row_indexes, channel_row_idx_start_points)`. -/
def scatterPass (ord : Nat → Nat) : Nat → (Nat → Nat) × (Nat → Nat) → (Nat → Nat) × (Nat → Nat)
  | 0, st => st
  | m + 1, st =>
    scatterPass ord m (upd st.1 (st.2 (ord m) - 1) m, upd st.2 (ord m) (st.2 (ord m) - 1))

/-- The write context built per incoming batch: the row permutation and
the per-ordinal boundaries (`_row_indexes` and
`_channel_row_idx_start_points`). -/
structure WriteContext where
  row_indexes : Nat → Nat
  channel_row_idx_start_points : Nat → Nat

/-- `LocalTabletsChannel::_create_write_context`: fail with
`INVALID_ARGUMENT` when there is no chunk and no eos flag; return an empty
context for an eos-only request; fail with `INVALID_ARGUMENT` when the
per-row tablet-id array length differs from the chunk's row count;
otherwise run the counting, prefix-sum and reverse scatter passes.
The chunk is modelled by its row count. -/
def create_write_context (tablets tabletIds : List Int) (chunk : Option Nat) (eos : Bool) :
    Except TStatusCode WriteContext :=
  match chunk with
  | none =>
    if eos then .ok ⟨fun _ => 0, fun _ => 0⟩
    else .error .INVALID_ARGUMENT
  | some rows =>
    if tabletIds.length ≠ rows then .error .INVALID_ARGUMENT
    else
      let n := tabletIds.length
      let cs := channelSize tablets
      let ord := chunkOrd tablets tabletIds
      let st := scatterPass ord n (fun _ => 0, prefixPass (countPass ord n) cs)
      .ok ⟨st.1, st.2⟩

/-! ## Channel state and `add_chunk` -/

/-- The facts about one `AsyncDeltaWriter` that the close decision reads:
its partition id (`delta_writer->partition_id()`) and whether its replica
state is `Secondary` (`delta_writer->replica_state()`). -/
structure DeltaWriter where
  partition_id : Int
  is_secondary : Bool
deriving DecidableEq, Repr

/-- The channel state mutated by `add_chunk`: the per-sender slots
(`_senders`), the remaining-sender counter (`_num_remaining_senders`),
the touched-partition set (`_partition_ids`), the writer map
(`_delta_writers`, keyed by tablet id) and the tablet ids it was opened
with (from which `_tablet_id_to_sorted_indexes` is built). -/
structure Channel where
  senders : List Sender
  num_remaining_senders : Int
  partition_ids : Finset Int
  delta_writers : List (Int × DeltaWriter)
  tablets : List Int
deriving DecidableEq

/-- `LocalTabletsChannel::open`: `N` fresh sender slots,
`_num_remaining_senders = N`, no touched partitions, writers and sorted
index built from the open request's tablet list. -/
def Channel.init (writers : List (Int × DeltaWriter)) (numSenders : Nat) : Channel :=
  { senders := List.replicate numSenders Sender.init
    num_remaining_senders := numSenders
    partition_ids := ∅
    delta_writers := writers
    tablets := writers.map Prod.fst }

/-- Requests dispatched to delta writers by one `add_chunk` call:
`delta_writer->write`, `delta_writer->commit`, `delta_writer->abort`. -/
inductive Event where
  | writeReq (tablet : Int)
  | commitReq (tablet : Int)
  | abortReq (tablet : Int)
deriving DecidableEq, Repr

/-- The incoming `PTabletWriterAddChunkRequest` fields read by
`add_chunk`; optional fields model the protobuf `has_*` accessors, and the
chunk is modelled by its row count (`none` = no chunk attached). -/
structure Request where
  sender_id : Option Int
  packet_seq : Option Int
  eos : Bool
  partition_ids : List Int
  tablet_ids : List Int
  chunk : Option Nat
deriving DecidableEq

/-- Result of one `add_chunk` call: the response status code, the new
channel state, the delta-writer requests issued (in program order), and
the `close_channel` flag. -/
structure AddChunkResult where
  status : TStatusCode
  chan : Channel
  events : List Event
  closed : Bool
deriving DecidableEq

/-- The commit/abort loop run when the last sender closes: for every
delta writer whose replica state is not `Secondary`, abort it when its
partition id was never touched, commit it otherwise.  (Secondary replicas
are skipped: they are committed by the primary.) -/
def closeEvents (writers : List (Int × DeltaWriter)) (partitionIds : Finset Int) : List Event :=
  writers.filterMap fun tw =>
    if tw.2.is_secondary then none
    else if tw.2.partition_id ∉ partitionIds then some (.abortReq tw.1)
    else some (.commitReq tw.1)

/-- The per-tablet dispatch loop of `add_chunk`: for each ordinal with a
nonzero sub-range, a write request to the tablet
`tablet_ids[row_indexes[from]]`. -/
def writeEvents (tabletIds : List Int) (ctx : WriteContext) (csize : Nat) : List Event :=
  (List.range csize).filterMap fun i =>
    let start := ctx.channel_row_idx_start_points i
    if ctx.channel_row_idx_start_points (i + 1) - start = 0 then none
    else some (.writeReq (tabletIds.getD (ctx.row_indexes start) 0))

/-- `LocalTabletsChannel::add_chunk`, sequential semantics of one call.
Stages, in source order: request-shape validation; the sliding-window
admission check under the sender's lock; `_create_write_context`; the
per-tablet write dispatch; on eos, `_close_sender` (atomic decrement of
`_num_remaining_senders` plus accumulation of the request's partition ids
into `_partition_ids`) and, when the decrement reaches zero, the
commit/abort loop; finally the success-window update and pruning under the
sender's lock.  The pruning `while` loop is modelled with `fuel`
iterations. -/
def add_chunk (W fuel : Nat) (ch : Channel) (req : Request) : AddChunkResult :=
  match req.sender_id with
  | none => ⟨.INVALID_ARGUMENT, ch, [], false⟩
  | some sid =>
    if sid < 0 then ⟨.INVALID_ARGUMENT, ch, [], false⟩
    else if ch.senders.length ≤ sid.toNat then ⟨.INVALID_ARGUMENT, ch, [], false⟩
    else
      match req.packet_seq with
      | none => ⟨.INVALID_ARGUMENT, ch, [], false⟩
      | some seq =>
        let s := ch.senders.getD sid.toNat Sender.init
        if seq ∈ s.receive_sliding_window then
          if seq ∉ s.success_sliding_window ∨ req.eos then
            ⟨.DUPLICATE_RPC_INVOCATION, ch, [], false⟩
          else ⟨.OK, ch, [], false⟩
        else if seq ≤ s.last_sliding_packet_seq then ⟨.OK, ch, [], false⟩
        else if (s.last_sliding_packet_seq + (W : Int)) < seq then
          ⟨.INVALID_ARGUMENT, ch, [], false⟩
        else
          let s1 : Sender :=
            { s with receive_sliding_window := insert seq s.receive_sliding_window }
          let ch1 : Channel := { ch with senders := ch.senders.set sid.toNat s1 }
          match create_write_context ch1.tablets req.tablet_ids req.chunk req.eos with
          | .error st => ⟨st, ch1, [], false⟩
          | .ok ctx =>
            let csize := if req.chunk.isSome then channelSize ch1.tablets else 0
            let writes := writeEvents req.tablet_ids ctx csize
            let step2 :=
              if req.eos then
                let remaining := ch1.num_remaining_senders - 1
                let ch2 : Channel :=
                  { ch1 with
                    num_remaining_senders := remaining
                    partition_ids := ch1.partition_ids ∪ req.partition_ids.toFinset }
                if remaining = 0 then
                  (ch2, closeEvents ch2.delta_writers ch2.partition_ids, true)
                else (ch2, ([] : List Event), false)
              else (ch1, ([] : List Event), false)
            let ch2 := step2.1
            let s2 := ch2.senders.getD sid.toNat Sender.init
            let s3 := completeUpdate W fuel seq s2
            ⟨.OK, { ch2 with senders := ch2.senders.set sid.toNat s3 },
              writes ++ step2.2.1, step2.2.2⟩

/-- A whole run: fold `add_chunk` over a list of requests, keeping only
the evolving channel state. -/
def runRequests (W fuel : Nat) (ch : Channel) (reqs : List Request) : Channel :=
  reqs.foldl (fun c r => (add_chunk W fuel c r).chan) ch

/-! ## Sender-slot operation traces (admission checks and
write-completion updates, the two lock-protected blocks of `add_chunk`) -/

/-- The admission check of `add_chunk` restricted to its effect on the
sender slot: early replies leave the slot unchanged; a fresh admissible
sequence is inserted into the receive window. -/
def admitSender (W : Nat) (s : Sender) (seq : Int) : Sender :=
  if seq ∈ s.receive_sliding_window then s
  else if seq ≤ s.last_sliding_packet_seq then s
  else if s.last_sliding_packet_seq + (W : Int) < seq then s
  else { s with receive_sliding_window := insert seq s.receive_sliding_window }

/-- A sender-slot operation: an admission check for `seq`, or the
write-completion update for `seq`.  In the program a completion update
runs only for a sequence number that the same call inserted at admission
and that no other call completed (a replay of an in-flight sequence is
rejected with `DUPLICATE_RPC_INVOCATION`), and pruning removes an entry
of the receive window only when it is also in the success window; the
`complete` operation therefore carries the guard `seq` still in the
receive window and not yet in the success window. -/
inductive SenderOp where
  | recv (seq : Int)
  | complete (seq : Int)

def applySenderOp (W fuel : Nat) (s : Sender) : SenderOp → Sender
  | .recv seq => admitSender W s seq
  | .complete seq =>
    if seq ∈ s.receive_sliding_window ∧ seq ∉ s.success_sliding_window then
      completeUpdate W fuel seq s
    else s

def runSenderOps (W fuel : Nat) (s : Sender) (ops : List SenderOp) : Sender :=
  ops.foldl (applySenderOp W fuel) s

/-! ## Derived state forms and traces -/

/-- The sender slot after admission inserts `seq` into the receive window
(the final `else` branch of the sliding-window check). -/
def recvInsert (s : Sender) (seq : Int) : Sender :=
  ⟨insert seq s.receive_sliding_window, s.success_sliding_window, s.last_sliding_packet_seq⟩

/-- The channel right after admission inserted `seq` into sender `sid`. -/
def chAfterAdmit (ch : Channel) (sid : Nat) (seq : Int) : Channel :=
  ⟨ch.senders.set sid (recvInsert (ch.senders.getD sid Sender.init) seq),
   ch.num_remaining_senders, ch.partition_ids, ch.delta_writers, ch.tablets⟩

/-- The channel at the end of a dispatching `add_chunk` call: the sender
slot got the success-window update, and the remaining-sender counter and
touched-partition set take the given values. -/
def chFinal (W fuel : Nat) (ch : Channel) (sid : Nat) (seq : Int) (remaining : Int)
    (pids : Finset Int) : Channel :=
  ⟨(chAfterAdmit ch sid seq).senders.set sid
      (completeUpdate W fuel seq (recvInsert (ch.senders.getD sid Sender.init) seq)),
   remaining, pids, ch.delta_writers, ch.tablets⟩

/-- Every receive-window entry respects the window bound
`x ≤ last_sliding_packet_seq + windowSize`. -/
def SenderBounded (W : Nat) (s : Sender) : Prop :=
  ∀ x ∈ s.receive_sliding_window, x ≤ s.last_sliding_packet_seq + W

/-- `SenderBounded` for every sender slot of the channel. -/
def ChannelBounded (W : Nat) (ch : Channel) : Prop :=
  ∀ s ∈ ch.senders, SenderBounded W s

/-- A whole run keeping each call's full result. -/
def runResults (W fuel : Nat) : Channel → List Request → List AddChunkResult
  | _, [] => []
  | ch, r :: rs =>
    let res := add_chunk W fuel ch r
    res :: runResults W fuel res.chan rs

/-- The eos-only closing request of sender `k` carrying its touched
partition ids (sequence number `0`, no chunk). -/
def eosReq (k : Nat) (pids : List Int) : Request :=
  ⟨some (k : Int), some 0, true, pids, [], none⟩

/-- Each sender in turn (starting from sender `k`) delivers its eos-only
closing batch; the per-call results are collected. -/
def runEosCalls (W fuel : Nat) : Channel → Nat → List (List Int) → List AddChunkResult
  | _, _, [] => []
  | ch, k, pids :: rest =>
    let r := add_chunk W fuel ch (eosReq k pids)
    r :: runEosCalls W fuel r.chan (k + 1) rest

/-- The union of the partition-id sets of all senders' eos batches. -/
def unionPids : List (List Int) → Finset Int
  | [] => ∅
  | pids :: rest => pids.toFinset ∪ unionPids rest

/-! ## Counting functions for the scatter proof -/

/-- The number of rows below `m` whose ordinal is `c`. -/
def cntEqBelow (ord : Nat → Nat) (m c : Nat) : Nat :=
  ((List.range m).filter (fun i => ord i = c)).length

/-- The number of rows (out of `n`) whose ordinal is below `c`. -/
def cntLt (ord : Nat → Nat) (n c : Nat) : Nat :=
  ((List.range n).filter (fun i => ord i < c)).length

/-- The final position of row `i` in the scattered `row_indexes` buffer:
all rows of smaller ordinals come first, then the rows of `i`'s ordinal
in original batch order. -/
def rank (ord : Nat → Nat) (n i : Nat) : Nat :=
  cntLt ord n (ord i) + cntEqBelow ord i (ord i)

/-! ## Theorems -/

theorem getD_set_self {α : Type _} (l : List α) (i : Nat) (h : i < l.length) (a d : α) :
    (l.set i a).getD i d = a := by
  simp [List.getD_eq_getElem?_getD, List.getElem?_set_self h]

/-- C8: for a channel opened with tablets `5, 2, 8`, the sorted tablet
index maps tablet `2` to ordinal `0`, tablet `5` to ordinal `1`, tablet
`8` to ordinal `2`; for a batch whose per-row tablet ids are
`[5, 2, 5, 8]`, `_create_write_context` produces boundaries
`[0, 1, 3, 4]` and row indexes `[1, 0, 2, 3]`. -/
theorem sorted_index_and_scatter_example :
    tabletIdToSortedIndex [5, 2, 8] 2 = some 0 ∧
    tabletIdToSortedIndex [5, 2, 8] 5 = some 1 ∧
    tabletIdToSortedIndex [5, 2, 8] 8 = some 2 ∧
    (create_write_context [5, 2, 8] [5, 2, 5, 8] (some 4) false).toOption.map
      (fun ctx => ((List.range 4).map ctx.channel_row_idx_start_points,
                   (List.range 4).map ctx.row_indexes)) =
      some ([0, 1, 3, 4], [1, 0, 2, 3]) := by
  decide

/-- C9: an `AddChunk` request with a missing sender id, a negative or
out-of-range sender id, or a missing packet sequence is answered with
`INVALID_ARGUMENT`, and no channel or sender-slot state is mutated, no
write is dispatched, and the channel is not closed. -/
theorem add_chunk_malformed_request_rejected (W fuel : Nat) (ch : Channel) (req : Request)
    (h : req.sender_id = none ∨
         (∃ sid, req.sender_id = some sid ∧ (sid < 0 ∨ ch.senders.length ≤ sid.toNat)) ∨
         req.packet_seq = none) :
    add_chunk W fuel ch req = ⟨.INVALID_ARGUMENT, ch, [], false⟩ := by
  rcases h with h | ⟨sid, hs, hbad⟩ | h
  · simp [add_chunk, h]
  · rcases hbad with hneg | hrange
    · simp [add_chunk, hs, hneg]
    · have : ¬sid < 0 ∨ sid < 0 := Or.symm (em _)
      rcases this with hpos | hneg
      · simp [add_chunk, hs, hpos, hrange]
      · simp [add_chunk, hs, hneg]
  · cases hsid : req.sender_id with
    | none => simp [add_chunk, hsid]
    | some sid =>
      by_cases hneg : sid < 0
      · simp [add_chunk, hsid, hneg]
      · by_cases hrange : ch.senders.length ≤ sid.toNat
        · simp [add_chunk, hsid, hneg, hrange]
        · simp [add_chunk, hsid, hneg, hrange, h]

/-- C9 witness. -/
theorem add_chunk_malformed_request_rejected_witness :
    add_chunk 4 0 (Channel.init [] 1) ⟨none, some 0, false, [], [], none⟩ =
      ⟨.INVALID_ARGUMENT, Channel.init [] 1, [], false⟩ :=
  add_chunk_malformed_request_rejected 4 0 (Channel.init [] 1)
    ⟨none, some 0, false, [], [], none⟩ (Or.inl rfl)

/-- C2: for a well-formed `AddChunk` request `(senderId, seq)`:
if `seq` is already in the sender's receive window and (`seq` is not in
the success window or the eos flag is set) the status is
`DUPLICATE_RPC_INVOCATION`; if `seq` is in both windows and eos is not set
the status is `OK`; if `seq` is not in the receive window and
`seq ≤ lastContiguousSeq` the status is `OK`; in all three cases the
channel (and thus the sender's windows and `last_sliding_packet_seq`) is
unchanged, no write is dispatched, and the channel is not closed. -/
theorem add_chunk_dedup_cases (W fuel : Nat) (ch : Channel) (req : Request) (sid seq : Int)
    (hs : req.sender_id = some sid) (h0 : ¬sid < 0) (hlen : ¬ch.senders.length ≤ sid.toNat)
    (hq : req.packet_seq = some seq) :
    (seq ∈ (ch.senders.getD sid.toNat Sender.init).receive_sliding_window →
      (seq ∉ (ch.senders.getD sid.toNat Sender.init).success_sliding_window ∨ req.eos = true) →
      add_chunk W fuel ch req = ⟨.DUPLICATE_RPC_INVOCATION, ch, [], false⟩) ∧
    (seq ∈ (ch.senders.getD sid.toNat Sender.init).receive_sliding_window →
      seq ∈ (ch.senders.getD sid.toNat Sender.init).success_sliding_window →
      req.eos = false →
      add_chunk W fuel ch req = ⟨.OK, ch, [], false⟩) ∧
    (seq ∉ (ch.senders.getD sid.toNat Sender.init).receive_sliding_window →
      seq ≤ (ch.senders.getD sid.toNat Sender.init).last_sliding_packet_seq →
      add_chunk W fuel ch req = ⟨.OK, ch, [], false⟩) := by
  refine ⟨fun hin hdup => ?_, fun hin hsucc heos => ?_, fun hnin hle => ?_⟩
  · simp only [add_chunk, hs, hq]
    rw [if_neg h0, if_neg hlen, if_pos hin, if_pos hdup]
  · simp only [add_chunk, hs, hq]
    rw [if_neg h0, if_neg hlen, if_pos hin,
      if_neg (not_or.mpr ⟨not_not_intro hsucc, by simp [heos]⟩)]
  · simp only [add_chunk, hs, hq]
    rw [if_neg h0, if_neg hlen, if_neg hnin, if_pos hle]

/-- C2 witness: a channel whose sender slot has `0` in the receive window
but not the success window answers a replay of `seq = 0` with
`DUPLICATE_RPC_INVOCATION`; with `0` in both windows it answers `OK`; a
pruned `seq = -5` (below `last_sliding_packet_seq = -1`) answers `OK`. -/
theorem add_chunk_dedup_cases_witness :
    add_chunk 4 0 ⟨[⟨{0}, ∅, -1⟩], 1, ∅, [], []⟩ ⟨some 0, some 0, false, [], [], none⟩ =
      ⟨.DUPLICATE_RPC_INVOCATION, ⟨[⟨{0}, ∅, -1⟩], 1, ∅, [], []⟩, [], false⟩ ∧
    add_chunk 4 0 ⟨[⟨{0}, {0}, -1⟩], 1, ∅, [], []⟩ ⟨some 0, some 0, false, [], [], none⟩ =
      ⟨.OK, ⟨[⟨{0}, {0}, -1⟩], 1, ∅, [], []⟩, [], false⟩ ∧
    add_chunk 4 0 ⟨[⟨∅, ∅, -1⟩], 1, ∅, [], []⟩ ⟨some 0, some (-5), false, [], [], none⟩ =
      ⟨.OK, ⟨[⟨∅, ∅, -1⟩], 1, ∅, [], []⟩, [], false⟩ := by
  refine ⟨(add_chunk_dedup_cases 4 0 _ _ 0 0 rfl (by decide) (by decide) rfl).1
      (by decide) (Or.inl (by decide)),
    (add_chunk_dedup_cases 4 0 _ _ 0 0 rfl (by decide) (by decide) rfl).2.1
      (by decide) (by decide) rfl,
    (add_chunk_dedup_cases 4 0 _ _ 0 (-5) rfl (by decide) (by decide) rfl).2.2
      (by decide) (by decide)⟩

/-- C10: when admission has inserted `seq` into the sender's receive
window and `_create_write_context` then fails (no chunk and no eos flag,
or per-row tablet-id array length different from the chunk's row count),
`add_chunk` returns `INVALID_ARGUMENT`, dispatches nothing, leaves `seq`
in the receive window and does not insert it into the success window; and
every later retry of the same `(senderId, seq)` is answered
`DUPLICATE_RPC_INVOCATION` with no state change, forever. -/
theorem add_chunk_context_failure_poisons_seq (W fuel : Nat) (ch : Channel) (req : Request)
    (sid seq : Int)
    (hs : req.sender_id = some sid) (h0 : ¬sid < 0) (hlen : ¬ch.senders.length ≤ sid.toNat)
    (hq : req.packet_seq = some seq)
    (hnin : seq ∉ (ch.senders.getD sid.toNat Sender.init).receive_sliding_window)
    (hnsucc : seq ∉ (ch.senders.getD sid.toNat Sender.init).success_sliding_window)
    (hgt : (ch.senders.getD sid.toNat Sender.init).last_sliding_packet_seq < seq)
    (hle : seq ≤ (ch.senders.getD sid.toNat Sender.init).last_sliding_packet_seq + W)
    (hfail : (req.chunk = none ∧ req.eos = false) ∨
             (∃ rows, req.chunk = some rows ∧ req.tablet_ids.length ≠ rows)) :
    add_chunk W fuel ch req =
      ⟨.INVALID_ARGUMENT,
        ⟨ch.senders.set sid.toNat
            ⟨insert seq (ch.senders.getD sid.toNat Sender.init).receive_sliding_window,
             (ch.senders.getD sid.toNat Sender.init).success_sliding_window,
             (ch.senders.getD sid.toNat Sender.init).last_sliding_packet_seq⟩,
         ch.num_remaining_senders, ch.partition_ids, ch.delta_writers, ch.tablets⟩,
        [], false⟩ ∧
    ∀ (fuel2 : Nat) (req2 : Request), req2.sender_id = some sid → req2.packet_seq = some seq →
      add_chunk W fuel2 (add_chunk W fuel ch req).chan req2 =
        ⟨.DUPLICATE_RPC_INVOCATION, (add_chunk W fuel ch req).chan, [], false⟩ := by
  have hmain : add_chunk W fuel ch req =
      ⟨.INVALID_ARGUMENT,
        ⟨ch.senders.set sid.toNat
            ⟨insert seq (ch.senders.getD sid.toNat Sender.init).receive_sliding_window,
             (ch.senders.getD sid.toNat Sender.init).success_sliding_window,
             (ch.senders.getD sid.toNat Sender.init).last_sliding_packet_seq⟩,
         ch.num_remaining_senders, ch.partition_ids, ch.delta_writers, ch.tablets⟩,
        [], false⟩ := by
    simp only [add_chunk, hs, hq]
    rw [if_neg h0, if_neg hlen, if_neg hnin, if_neg (not_le.mpr hgt), if_neg (not_lt.mpr hle)]
    rcases hfail with ⟨hchunk, heos⟩ | ⟨rows, hchunk, hmis⟩
    · simp only [hchunk, heos, create_write_context, Bool.false_eq_true, if_false]
    · simp only [hchunk, create_write_context, if_pos hmis]
  refine ⟨hmain, fun fuel2 req2 hs2 hq2 => ?_⟩
  rw [hmain]
  have hlen2 : sid.toNat < ch.senders.length := lt_of_not_le hlen
  have hget : ((ch.senders.set sid.toNat
      (⟨insert seq (ch.senders.getD sid.toNat Sender.init).receive_sliding_window,
        (ch.senders.getD sid.toNat Sender.init).success_sliding_window,
        (ch.senders.getD sid.toNat Sender.init).last_sliding_packet_seq⟩ : Sender)).getD
        sid.toNat Sender.init) =
      ⟨insert seq (ch.senders.getD sid.toNat Sender.init).receive_sliding_window,
       (ch.senders.getD sid.toNat Sender.init).success_sliding_window,
       (ch.senders.getD sid.toNat Sender.init).last_sliding_packet_seq⟩ :=
    getD_set_self _ _ hlen2 _ _
  simp only [add_chunk, hs2, hq2]
  rw [if_neg h0, if_neg (by simpa using hlen), hget, if_pos (Finset.mem_insert_self seq _),
    if_pos (Or.inl hnsucc)]

/-- C10 witness: a fresh single-sender channel, a request with
`seq = 0`, no chunk and no eos flag; the call is rejected with
`INVALID_ARGUMENT` (with `0` left in the receive window) and a retry of
`seq = 0` answers `DUPLICATE_RPC_INVOCATION` with unchanged state. -/
theorem add_chunk_context_failure_poisons_seq_witness :
    add_chunk 4 0 ⟨[Sender.init], 1, ∅, [], []⟩ ⟨some 0, some 0, false, [], [], none⟩ =
      ⟨.INVALID_ARGUMENT, ⟨[⟨{0}, ∅, -1⟩], 1, ∅, [], []⟩, [], false⟩ ∧
    add_chunk 4 0 ⟨[⟨{0}, ∅, -1⟩], 1, ∅, [], []⟩ ⟨some 0, some 0, false, [], [], none⟩ =
      ⟨.DUPLICATE_RPC_INVOCATION, ⟨[⟨{0}, ∅, -1⟩], 1, ∅, [], []⟩, [], false⟩ := by
  have h := add_chunk_context_failure_poisons_seq 4 0 ⟨[Sender.init], 1, ∅, [], []⟩
    ⟨some 0, some 0, false, [], [], none⟩ 0 0 rfl (by decide) (by decide) rfl
    (by decide) (by decide) (by decide) (by decide) (Or.inl ⟨rfl, rfl⟩)
  have h1 := h.1
  have h2 := h.2 0 ⟨some 0, some 0, false, [], [], none⟩ rfl rfl
  rw [h1] at h2
  have e1 : (⟨([Sender.init] : List Sender).set (0 : Int).toNat
      ⟨insert 0 (([Sender.init] : List Sender).getD (0 : Int).toNat
          Sender.init).receive_sliding_window,
       (([Sender.init] : List Sender).getD (0 : Int).toNat Sender.init).success_sliding_window,
       (([Sender.init] : List Sender).getD (0 : Int).toNat
          Sender.init).last_sliding_packet_seq⟩,
      (1 : Int), (∅ : Finset Int), ([] : List (Int × DeltaWriter)), ([] : List Int)⟩ : Channel) =
      ⟨[⟨{0}, ∅, -1⟩], 1, ∅, [], []⟩ := by decide
  rw [e1] at h1 h2
  exact ⟨h1, h2⟩

/-! ## Pruning-loop lemmas -/

theorem pruneIter_receive_subset (s : Sender) :
    (pruneIter s).receive_sliding_window ⊆ s.receive_sliding_window := by
  unfold pruneIter
  split
  · split
    · exact Finset.erase_subset _ _
    · exact subset_rfl
  · exact subset_rfl

theorem pruneIter_success_subset (s : Sender) :
    (pruneIter s).success_sliding_window ⊆ s.success_sliding_window := by
  unfold pruneIter
  split
  · split
    · exact Finset.erase_subset _ _
    · exact subset_rfl
  · exact subset_rfl

theorem pruneIter_last_le (s : Sender) :
    s.last_sliding_packet_seq ≤ (pruneIter s).last_sliding_packet_seq := by
  unfold pruneIter
  split
  · split
    · exact le_of_lt (lt_add_one _)
    · exact le_refl _
  · exact le_refl _

theorem pruneIter_inv (s : Sender)
    (h : s.success_sliding_window ⊆ s.receive_sliding_window) :
    (pruneIter s).success_sliding_window ⊆ (pruneIter s).receive_sliding_window := by
  unfold pruneIter
  split
  next a b hmin hmin' =>
    split
    next hc =>
      intro x hx
      rw [Finset.mem_erase] at hx ⊢
      exact ⟨hc.2 ▸ hx.1, h hx.2⟩
    · exact h
  · exact h

/-- The pruning step either leaves the slot unchanged, or the smallest
elements of both windows coincide and equal
`last_sliding_packet_seq + 1` and it erases that element from both
windows and advances `last_sliding_packet_seq`. -/
theorem pruneIter_eq_or (s : Sender) :
    pruneIter s = s ∨
    ∃ a, s.success_sliding_window.min = some a ∧ s.receive_sliding_window.min = some a ∧
      s.last_sliding_packet_seq + 1 = a ∧
      pruneIter s = ⟨s.receive_sliding_window.erase a, s.success_sliding_window.erase a,
        s.last_sliding_packet_seq + 1⟩ := by
  unfold pruneIter
  split
  next a b hmin hmin' =>
    split
    next hc => exact Or.inr ⟨a, hmin, hc.2 ▸ hmin', hc.1, by rw [hc.2]⟩
    next => exact Or.inl rfl
  next => exact Or.inl rfl

/-- Where the pruning step removes an entry from either window, that
entry equals `last_sliding_packet_seq + 1`, was present in both windows,
and is removed from both. -/
theorem pruneIter_remove_spec (s : Sender) (x : Int)
    (h : (x ∈ s.receive_sliding_window ∧ x ∉ (pruneIter s).receive_sliding_window) ∨
         (x ∈ s.success_sliding_window ∧ x ∉ (pruneIter s).success_sliding_window)) :
    x = s.last_sliding_packet_seq + 1 ∧
    x ∈ s.receive_sliding_window ∧ x ∈ s.success_sliding_window ∧
    x ∉ (pruneIter s).receive_sliding_window ∧ x ∉ (pruneIter s).success_sliding_window := by
  rcases pruneIter_eq_or s with heq | ⟨a, hmin, hmin', hlast, heq⟩
  · rw [heq] at h
    rcases h with ⟨hx1, hx2⟩ | ⟨hx1, hx2⟩ <;> exact absurd hx1 hx2
  · rw [heq] at h ⊢
    have hxa : x = a := by
      rcases h with ⟨hx1, hx2⟩ | ⟨hx1, hx2⟩ <;>
        · by_contra hne
          exact hx2 (Finset.mem_erase.mpr ⟨hne, hx1⟩)
    subst hxa
    exact ⟨hlast.symm, Finset.mem_of_min hmin', Finset.mem_of_min hmin,
      Finset.not_mem_erase _ _, Finset.not_mem_erase _ _⟩

theorem pruneLoop_receive_subset (W : Nat) :
    ∀ (fuel : Nat) (s : Sender),
      (pruneLoop W fuel s).receive_sliding_window ⊆ s.receive_sliding_window
  | 0, _ => subset_rfl
  | fuel + 1, s => by
    unfold pruneLoop
    split
    · exact (pruneLoop_receive_subset W fuel _).trans (pruneIter_receive_subset s)
    · exact subset_rfl

theorem pruneLoop_last_le (W : Nat) :
    ∀ (fuel : Nat) (s : Sender),
      s.last_sliding_packet_seq ≤ (pruneLoop W fuel s).last_sliding_packet_seq
  | 0, _ => le_refl _
  | fuel + 1, s => by
    unfold pruneLoop
    split
    · exact (pruneIter_last_le s).trans (pruneLoop_last_le W fuel _)
    · exact le_refl _

theorem pruneLoop_inv (W : Nat) :
    ∀ (fuel : Nat) (s : Sender),
      s.success_sliding_window ⊆ s.receive_sliding_window →
      (pruneLoop W fuel s).success_sliding_window ⊆
        (pruneLoop W fuel s).receive_sliding_window
  | 0, _, h => h
  | fuel + 1, s, h => by
    unfold pruneLoop
    split
    · exact pruneLoop_inv W fuel _ (pruneIter_inv s h)
    · exact h

theorem applySenderOp_inv (W fuel : Nat) (s : Sender) (op : SenderOp)
    (h : s.success_sliding_window ⊆ s.receive_sliding_window) :
    (applySenderOp W fuel s op).success_sliding_window ⊆
      (applySenderOp W fuel s op).receive_sliding_window := by
  cases op with
  | recv seq =>
    simp only [applySenderOp]
    unfold admitSender
    split
    · exact h
    · split
      · exact h
      · split
        · exact h
        · exact h.trans (Finset.subset_insert _ _)
  | complete seq =>
    simp only [applySenderOp]
    split
    next hg =>
      refine pruneLoop_inv W fuel _ ?_
      intro x hx
      rcases Finset.mem_insert.mp hx with rfl | hx
      · exact hg.1
      · exact h hx
    · exact h

theorem applySenderOp_last_le (W fuel : Nat) (s : Sender) (op : SenderOp) :
    s.last_sliding_packet_seq ≤ (applySenderOp W fuel s op).last_sliding_packet_seq := by
  cases op with
  | recv seq =>
    simp only [applySenderOp]
    unfold admitSender
    split
    · exact le_refl _
    · split
      · exact le_refl _
      · split
        · exact le_refl _
        · exact le_refl _
  | complete seq =>
    simp only [applySenderOp]
    split
    · exact pruneLoop_last_le W fuel _
    · exact le_refl _

/-- C7: along every sequence of admission checks and write-completion
updates on a sender slot, the invariant
`success_sliding_window ⊆ receive_sliding_window` is preserved and
`last_sliding_packet_seq` never decreases; and whenever the pruning step
removes an entry from either window, that entry equals
`last_sliding_packet_seq + 1`, is present in both windows, and is removed
from both. -/
theorem sender_window_invariants (W fuel : Nat) (s0 : Sender) (ops : List SenderOp)
    (h0 : s0.success_sliding_window ⊆ s0.receive_sliding_window) :
    ((runSenderOps W fuel s0 ops).success_sliding_window ⊆
        (runSenderOps W fuel s0 ops).receive_sliding_window ∧
      s0.last_sliding_packet_seq ≤ (runSenderOps W fuel s0 ops).last_sliding_packet_seq) ∧
    (∀ (s : Sender) (x : Int),
      (x ∈ s.receive_sliding_window ∧ x ∉ (pruneIter s).receive_sliding_window) ∨
      (x ∈ s.success_sliding_window ∧ x ∉ (pruneIter s).success_sliding_window) →
      x = s.last_sliding_packet_seq + 1 ∧
      x ∈ s.receive_sliding_window ∧ x ∈ s.success_sliding_window ∧
      x ∉ (pruneIter s).receive_sliding_window ∧
      x ∉ (pruneIter s).success_sliding_window) := by
  refine ⟨?_, fun s x h => pruneIter_remove_spec s x h⟩
  induction ops generalizing s0 with
  | nil => exact ⟨h0, le_refl _⟩
  | cons op rest ih =>
    have h1 := applySenderOp_inv W fuel s0 op h0
    have h2 := applySenderOp_last_le W fuel s0 op
    have h3 := ih (applySenderOp W fuel s0 op) h1
    exact ⟨h3.1, h2.trans h3.2⟩

/-- C7 witness: from the fresh slot, an admission of `seq = 0` followed by
its completion keeps the invariant, and the concrete pruning-removal fact
is instantiated at a slot holding `0` in both windows. -/
theorem sender_window_invariants_witness :
    ((runSenderOps 4 1 Sender.init [.recv 0, .complete 0]).success_sliding_window ⊆
        (runSenderOps 4 1 Sender.init [.recv 0, .complete 0]).receive_sliding_window ∧
      (Sender.init.last_sliding_packet_seq ≤
        (runSenderOps 4 1 Sender.init [.recv 0, .complete 0]).last_sliding_packet_seq)) ∧
    ((0 : Int) = (⟨{0}, {0}, -1⟩ : Sender).last_sliding_packet_seq + 1 ∧
      (0 : Int) ∈ (⟨{0}, {0}, -1⟩ : Sender).receive_sliding_window ∧
      (0 : Int) ∈ (⟨{0}, {0}, -1⟩ : Sender).success_sliding_window ∧
      (0 : Int) ∉ (pruneIter ⟨{0}, {0}, -1⟩).receive_sliding_window ∧
      (0 : Int) ∉ (pruneIter ⟨{0}, {0}, -1⟩).success_sliding_window) := by
  have h := sender_window_invariants 4 1 Sender.init [.recv 0, .complete 0]
    (by decide)
  exact ⟨h.1, h.2 ⟨{0}, {0}, -1⟩ 0 (Or.inl (by decide))⟩

/-! ## Non-termination of the pruning loop (C6) -/

theorem pruneLoop_fix (W : Nat) (s : Sender) (h : pruneIter s = s) :
    ∀ fuel, pruneLoop W fuel s = s
  | 0 => rfl
  | fuel + 1 => by
    unfold pruneLoop
    split
    · rw [h]; exact pruneLoop_fix W s h fuel
    · rfl

theorem pruneLoop_stop (W : Nat) (s : Sender)
    (h : ¬W / 2 < s.success_sliding_window.card) :
    ∀ fuel, pruneLoop W fuel s = s
  | 0 => rfl
  | _ + 1 => by unfold pruneLoop; rw [if_neg h]

/-- C6 (failing input): with window size `4` and a fresh single-sender
channel, three `add_chunk` calls with sequences `1, 2, 3` (sequence `0`
never arrives: lost or still in flight) each insert their sequence into
both windows without pruning; at the end of the third call the success
window is `{3, 2, 1}` of size `3 > 4 / 2`, so the pruning loop's guard
holds, yet its body removes nothing because the smallest element `1`
differs from `last_sliding_packet_seq + 1 = 0`.  The state therefore
never changes, the guard holds after every number of iterations, and the
C++ `while` loop neither terminates nor removes any entry — against the
claim that the pruning loop terminates after removing at most
`windowSize / 2` entries even under an out-of-order completion gap.
(The model's `runRequests` result is independent of the fuel because the
loop state is a fixed point.) -/
theorem prune_loop_never_terminates (fuel : Nat) :
    runRequests 4 fuel (Channel.init [] 1)
      [⟨some 0, some 1, false, [], [], some 0⟩,
       ⟨some 0, some 2, false, [], [], some 0⟩,
       ⟨some 0, some 3, false, [], [], some 0⟩] =
      ⟨[⟨{3, 2, 1}, {3, 2, 1}, -1⟩], 1, ∅, [], []⟩ ∧
    4 / 2 < ((⟨{3, 2, 1}, {3, 2, 1}, -1⟩ : Sender)).success_sliding_window.card ∧
    pruneIter ⟨{3, 2, 1}, {3, 2, 1}, -1⟩ = (⟨{3, 2, 1}, {3, 2, 1}, -1⟩ : Sender) ∧
    pruneLoop 4 fuel ⟨{3, 2, 1}, {3, 2, 1}, -1⟩ = (⟨{3, 2, 1}, {3, 2, 1}, -1⟩ : Sender) := by
  have hfix : pruneIter ⟨{3, 2, 1}, {3, 2, 1}, -1⟩ = (⟨{3, 2, 1}, {3, 2, 1}, -1⟩ : Sender) := rfl
  have h1 : add_chunk 4 fuel (Channel.init [] 1) ⟨some 0, some 1, false, [], [], some 0⟩ =
      ⟨.OK, ⟨[⟨{1}, {1}, -1⟩], 1, ∅, [], []⟩, [], false⟩ := by
    simp only [add_chunk]
    rw [if_neg (by decide), if_neg (by decide), if_neg (by decide), if_neg (by decide),
      if_neg (by decide)]
    simp only [create_write_context]
    rw [if_neg (by decide)]
    simp only [completeUpdate]
    rw [pruneLoop_stop 4 _ (by decide)]
    rfl
  have h2 : add_chunk 4 fuel ⟨[⟨{1}, {1}, -1⟩], 1, ∅, [], []⟩
        ⟨some 0, some 2, false, [], [], some 0⟩ =
      ⟨.OK, ⟨[⟨{2, 1}, {2, 1}, -1⟩], 1, ∅, [], []⟩, [], false⟩ := by
    simp only [add_chunk]
    rw [if_neg (by decide), if_neg (by decide), if_neg (by decide), if_neg (by decide),
      if_neg (by decide)]
    simp only [create_write_context]
    rw [if_neg (by decide)]
    simp only [completeUpdate]
    rw [pruneLoop_stop 4 _ (by decide)]
    rfl
  have h3 : add_chunk 4 fuel ⟨[⟨{2, 1}, {2, 1}, -1⟩], 1, ∅, [], []⟩
        ⟨some 0, some 3, false, [], [], some 0⟩ =
      ⟨.OK, ⟨[⟨{3, 2, 1}, {3, 2, 1}, -1⟩], 1, ∅, [], []⟩, [], false⟩ := by
    simp only [add_chunk]
    rw [if_neg (by decide), if_neg (by decide), if_neg (by decide), if_neg (by decide),
      if_neg (by decide)]
    simp only [create_write_context]
    rw [if_neg (by decide)]
    simp only [completeUpdate]
    rw [pruneLoop_fix 4 _ (by exact rfl)]
    rfl
  refine ⟨?_, by decide, hfix, pruneLoop_fix 4 _ hfix fuel⟩
  simp only [runRequests, List.foldl_cons, List.foldl_nil]
  rw [h1]
  dsimp only
  rw [h2]
  dsimp only
  rw [h3]

/-! ## A case analysis of `add_chunk` -/

/-- Case analysis of one `add_chunk` call: either it replies early with
the channel unchanged, no events and no close, or the request is
well-formed and admissible and the call runs to the end, with the three
dispatch outcomes: context-build failure, non-closing dispatch, closing
dispatch. -/
theorem add_chunk_shape (W fuel : Nat) (ch : Channel) (req : Request) :
    (∃ st, add_chunk W fuel ch req = ⟨st, ch, [], false⟩) ∨
    ∃ sid seq, req.sender_id = some sid ∧ req.packet_seq = some seq ∧
      ¬sid < 0 ∧ sid.toNat < ch.senders.length ∧
      seq ∉ (ch.senders.getD sid.toNat Sender.init).receive_sliding_window ∧
      (ch.senders.getD sid.toNat Sender.init).last_sliding_packet_seq < seq ∧
      seq ≤ (ch.senders.getD sid.toNat Sender.init).last_sliding_packet_seq + W ∧
      ((∃ st, create_write_context ch.tablets req.tablet_ids req.chunk req.eos = .error st ∧
          add_chunk W fuel ch req = ⟨st, chAfterAdmit ch sid.toNat seq, [], false⟩) ∨
       (∃ ctx, create_write_context ch.tablets req.tablet_ids req.chunk req.eos = .ok ctx ∧
          ((req.eos = false ∧
              add_chunk W fuel ch req =
                ⟨.OK, chFinal W fuel ch sid.toNat seq ch.num_remaining_senders ch.partition_ids,
                 writeEvents req.tablet_ids ctx
                   (if req.chunk.isSome then channelSize ch.tablets else 0), false⟩) ∨
           (req.eos = true ∧ ¬ch.num_remaining_senders - 1 = 0 ∧
              add_chunk W fuel ch req =
                ⟨.OK, chFinal W fuel ch sid.toNat seq (ch.num_remaining_senders - 1)
                    (ch.partition_ids ∪ req.partition_ids.toFinset),
                 writeEvents req.tablet_ids ctx
                   (if req.chunk.isSome then channelSize ch.tablets else 0), false⟩) ∨
           (req.eos = true ∧ ch.num_remaining_senders - 1 = 0 ∧
              add_chunk W fuel ch req =
                ⟨.OK, chFinal W fuel ch sid.toNat seq (ch.num_remaining_senders - 1)
                    (ch.partition_ids ∪ req.partition_ids.toFinset),
                 writeEvents req.tablet_ids ctx
                   (if req.chunk.isSome then channelSize ch.tablets else 0) ++
                   closeEvents ch.delta_writers
                     (ch.partition_ids ∪ req.partition_ids.toFinset), true⟩)))) := by
  cases hs : req.sender_id with
  | none => exact Or.inl ⟨.INVALID_ARGUMENT, by simp only [add_chunk, hs]⟩
  | some sid =>
    by_cases h0 : sid < 0
    · exact Or.inl ⟨.INVALID_ARGUMENT, by simp only [add_chunk, hs]; rw [if_pos h0]⟩
    by_cases hlen : ch.senders.length ≤ sid.toNat
    · exact Or.inl ⟨.INVALID_ARGUMENT, by
        simp only [add_chunk, hs]; rw [if_neg h0, if_pos hlen]⟩
    cases hq : req.packet_seq with
    | none => exact Or.inl ⟨.INVALID_ARGUMENT, by
        simp only [add_chunk, hs, hq]; rw [if_neg h0, if_neg hlen]⟩
    | some seq =>
      by_cases hin : seq ∈ (ch.senders.getD sid.toNat Sender.init).receive_sliding_window
      · by_cases hdup : seq ∉ (ch.senders.getD sid.toNat Sender.init).success_sliding_window ∨
            req.eos = true
        · exact Or.inl ⟨.DUPLICATE_RPC_INVOCATION, by
            simp only [add_chunk, hs, hq]; rw [if_neg h0, if_neg hlen, if_pos hin, if_pos hdup]⟩
        · exact Or.inl ⟨.OK, by
            simp only [add_chunk, hs, hq]; rw [if_neg h0, if_neg hlen, if_pos hin, if_neg hdup]⟩
      by_cases hle : seq ≤ (ch.senders.getD sid.toNat Sender.init).last_sliding_packet_seq
      · exact Or.inl ⟨.OK, by
          simp only [add_chunk, hs, hq]; rw [if_neg h0, if_neg hlen, if_neg hin, if_pos hle]⟩
      by_cases hfar : (ch.senders.getD sid.toNat Sender.init).last_sliding_packet_seq + (W : Int)
          < seq
      · exact Or.inl ⟨.INVALID_ARGUMENT, by
          simp only [add_chunk, hs, hq]
          rw [if_neg h0, if_neg hlen, if_neg hin, if_neg hle, if_pos hfar]⟩
      refine Or.inr ⟨sid, seq, rfl, rfl, h0, lt_of_not_le hlen, hin, lt_of_not_le hle,
        le_of_not_lt hfar, ?_⟩
      have hlen2 : sid.toNat < ch.senders.length := lt_of_not_le hlen
      cases hcw : create_write_context ch.tablets req.tablet_ids req.chunk req.eos with
      | error st =>
        refine Or.inl ⟨st, rfl, ?_⟩
        simp only [add_chunk, hs, hq]
        rw [if_neg h0, if_neg hlen, if_neg hin, if_neg hle, if_neg hfar, hcw]
        rfl
      | ok ctx =>
        refine Or.inr ⟨ctx, rfl, ?_⟩
        by_cases heos : req.eos = true
        · by_cases hrem : ch.num_remaining_senders - 1 = 0
          · refine Or.inr (Or.inr ⟨heos, hrem, ?_⟩)
            simp only [add_chunk, hs, hq]
            rw [if_neg h0, if_neg hlen, if_neg hin, if_neg hle, if_neg hfar, hcw]
            simp only [heos, if_true, if_pos hrem]
            rw [getD_set_self ch.senders sid.toNat hlen2]
            rfl
          · refine Or.inr (Or.inl ⟨heos, hrem, ?_⟩)
            simp only [add_chunk, hs, hq]
            rw [if_neg h0, if_neg hlen, if_neg hin, if_neg hle, if_neg hfar, hcw]
            simp only [heos, if_true, if_neg hrem]
            rw [getD_set_self ch.senders sid.toNat hlen2]
            simp only [List.append_nil]
            rfl
        · refine Or.inl ⟨eq_false_of_ne_true heos, ?_⟩
          simp only [add_chunk, hs, hq]
          rw [if_neg h0, if_neg hlen, if_neg hin, if_neg hle, if_neg hfar, hcw]
          simp only [if_neg heos]
          rw [getD_set_self ch.senders sid.toNat hlen2]
          simp only [List.append_nil]
          rfl

/-! ## The window bound over arbitrary runs (C5) -/

theorem getD_mem {α : Type _} (l : List α) (i : Nat) (h : i < l.length) (d : α) :
    l.getD i d ∈ l := by
  rw [List.getD_eq_getElem l d h]
  exact List.getElem_mem h

theorem senderBounded_completeUpdate (W fuel : Nat) (seq : Int) (s : Sender)
    (h : SenderBounded W s) : SenderBounded W (completeUpdate W fuel seq s) := by
  intro x hx
  unfold completeUpdate at hx ⊢
  have h1 : x ∈ s.receive_sliding_window :=
    pruneLoop_receive_subset W fuel
      { s with success_sliding_window := insert seq s.success_sliding_window } hx
  have h2 : s.last_sliding_packet_seq ≤
      (pruneLoop W fuel
        { s with success_sliding_window :=
            insert seq s.success_sliding_window }).last_sliding_packet_seq :=
    pruneLoop_last_le W fuel _
  exact le_trans (h x h1) (add_le_add_right h2 W)

theorem channelBounded_init (W : Nat) (writers : List (Int × DeltaWriter)) (numSenders : Nat) :
    ChannelBounded W (Channel.init writers numSenders) := by
  intro s hs x hx
  rw [List.eq_of_mem_replicate hs] at hx
  exact absurd hx (Finset.not_mem_empty x)

theorem add_chunk_bounded (W fuel : Nat) (ch : Channel) (req : Request)
    (h : ChannelBounded W ch) : ChannelBounded W (add_chunk W fuel ch req).chan := by
  rcases add_chunk_shape W fuel ch req with ⟨st, heq⟩ |
    ⟨sid, seq, hs, hq, h0, hlen, hin, hgt, hle, hrest⟩
  · rw [heq]; exact h
  · have hsmem : ch.senders.getD sid.toNat Sender.init ∈ ch.senders :=
      getD_mem ch.senders sid.toNat hlen Sender.init
    have hs1 : SenderBounded W (recvInsert (ch.senders.getD sid.toNat Sender.init) seq) := by
      intro x hx
      rcases Finset.mem_insert.mp hx with rfl | hx
      · exact hle
      · exact h _ hsmem x hx
    have hAdmit : ChannelBounded W (chAfterAdmit ch sid.toNat seq) := by
      intro s2 hs2
      rcases List.mem_or_eq_of_mem_set hs2 with hmem | rfl
      · exact h _ hmem
      · exact hs1
    have hFin : ∀ rem pids, ChannelBounded W (chFinal W fuel ch sid.toNat seq rem pids) := by
      intro rem pids s2 hs2
      rcases List.mem_or_eq_of_mem_set hs2 with hmem | rfl
      · rcases List.mem_or_eq_of_mem_set hmem with hmem2 | rfl
        · exact h _ hmem2
        · exact hs1
      · exact senderBounded_completeUpdate W fuel seq _ hs1
    rcases hrest with ⟨st, hcw, heq⟩ | ⟨ctx, hcw, hcase⟩
    · rw [heq]; exact hAdmit
    · rcases hcase with ⟨he, heq⟩ | ⟨he, hr, heq⟩ | ⟨he, hr, heq⟩ <;> rw [heq] <;>
        exact hFin _ _

theorem runRequests_bounded (W fuel : Nat) :
    ∀ (reqs : List Request) (ch : Channel), ChannelBounded W ch →
      ChannelBounded W (runRequests W fuel ch reqs)
  | [], _, h => h
  | r :: rs, ch, h =>
    runRequests_bounded W fuel rs (add_chunk W fuel ch r).chan (add_chunk_bounded W fuel ch r h)

/-- C5: whatever requests arrived earlier and in whatever order, a
well-formed request whose sequence number exceeds the sender's
`last_sliding_packet_seq + windowSize` is rejected with
`INVALID_ARGUMENT` and mutates nothing: such a sequence can never already
sit in the receive window, because insertion only happens at or below the
bound and `last_sliding_packet_seq` never decreases. -/
theorem window_bound_always_rejected (W fuel fuel2 : Nat)
    (writers : List (Int × DeltaWriter)) (numSenders : Nat) (reqs : List Request)
    (req : Request) (sid seq : Int)
    (hs : req.sender_id = some sid) (h0 : ¬sid < 0)
    (hlen : ¬(runRequests W fuel (Channel.init writers numSenders) reqs).senders.length ≤
      sid.toNat)
    (hq : req.packet_seq = some seq)
    (hfar : ((runRequests W fuel (Channel.init writers numSenders) reqs).senders.getD
        sid.toNat Sender.init).last_sliding_packet_seq + (W : Int) < seq) :
    add_chunk W fuel2 (runRequests W fuel (Channel.init writers numSenders) reqs) req =
      ⟨.INVALID_ARGUMENT, runRequests W fuel (Channel.init writers numSenders) reqs,
       [], false⟩ := by
  have hbound : ChannelBounded W (runRequests W fuel (Channel.init writers numSenders) reqs) :=
    runRequests_bounded W fuel reqs _ (channelBounded_init W writers numSenders)
  have hslot := hbound _ (getD_mem _ sid.toNat (lt_of_not_le hlen) Sender.init)
  have hnin : seq ∉ ((runRequests W fuel (Channel.init writers numSenders) reqs).senders.getD
      sid.toNat Sender.init).receive_sliding_window := by
    intro hmem
    exact absurd hfar (not_lt.mpr (hslot seq hmem))
  have hnle : ¬seq ≤ ((runRequests W fuel (Channel.init writers numSenders) reqs).senders.getD
      sid.toNat Sender.init).last_sliding_packet_seq := by
    intro hcon
    have : (0 : Int) ≤ (W : Int) := Int.ofNat_nonneg W
    omega
  simp only [add_chunk, hs, hq]
  rw [if_neg h0, if_neg hlen, if_neg hnin, if_neg hnle, if_pos hfar]

/-- C5 witness: a fresh single-sender channel (no earlier requests),
window size `4`: `seq = 7 > -1 + 4` is rejected with no state change. -/
theorem window_bound_always_rejected_witness :
    add_chunk 4 0 (runRequests 4 0 (Channel.init [] 1) []) ⟨some 0, some 7, false, [], [], none⟩ =
      ⟨.INVALID_ARGUMENT, runRequests 4 0 (Channel.init [] 1) [], [], false⟩ :=
  window_bound_always_rejected 4 0 0 [] 1 [] ⟨some 0, some 7, false, [], [], none⟩ 0 7
    rfl (by decide) (by decide) rfl (by decide)

/-! ## Close-once discipline (C4) -/

theorem add_chunk_remaining_le (W fuel : Nat) (ch : Channel) (req : Request) :
    (add_chunk W fuel ch req).chan.num_remaining_senders ≤ ch.num_remaining_senders := by
  rcases add_chunk_shape W fuel ch req with ⟨st, heq⟩ |
    ⟨sid, seq, hs, hq, h0, hlen, hin, hgt, hle, hrest⟩
  · rw [heq]
  · rcases hrest with ⟨st, hcw, heq⟩ | ⟨ctx, hcw, hcase⟩
    · rw [heq]; exact le_refl _
    · rcases hcase with ⟨he, heq⟩ | ⟨he, hr, heq⟩ | ⟨he, hr, heq⟩ <;> rw [heq] <;>
        dsimp only [chFinal]
      · exact le_refl _
      · omega
      · omega

theorem add_chunk_closed_spec (W fuel : Nat) (ch : Channel) (req : Request)
    (h : (add_chunk W fuel ch req).closed = true) :
    req.eos = true ∧ ch.num_remaining_senders = 1 ∧
    (add_chunk W fuel ch req).chan.num_remaining_senders = 0 := by
  rcases add_chunk_shape W fuel ch req with ⟨st, heq⟩ |
    ⟨sid, seq, hs, hq, h0, hlen, hin, hgt, hle, hrest⟩
  · rw [heq] at h; exact absurd h (by simp)
  · rcases hrest with ⟨st, hcw, heq⟩ | ⟨ctx, hcw, hcase⟩
    · rw [heq] at h; exact absurd h (by simp)
    · rcases hcase with ⟨he, heq⟩ | ⟨he, hr, heq⟩ | ⟨he, hr, heq⟩
      · rw [heq] at h; exact absurd h (by simp)
      · rw [heq] at h; exact absurd h (by simp)
      · refine ⟨he, by omega, ?_⟩
        rw [heq]
        exact hr

theorem writeEvents_only_writes (tabletIds : List Int) (ctx : WriteContext) (csize : Nat) :
    ∀ e ∈ writeEvents tabletIds ctx csize, ∃ tb, e = .writeReq tb := by
  intro e he
  rcases List.mem_filterMap.mp he with ⟨i, _, hi⟩
  dsimp only at hi
  by_cases hz : ctx.channel_row_idx_start_points (i + 1) - ctx.channel_row_idx_start_points i = 0
  · rw [if_pos hz] at hi
    cases hi
  · rw [if_neg hz] at hi
    injection hi with hi
    exact ⟨_, hi.symm⟩

theorem add_chunk_commit_abort_closed (W fuel : Nat) (ch : Channel) (req : Request) (t : Int)
    (h : Event.commitReq t ∈ (add_chunk W fuel ch req).events ∨
         Event.abortReq t ∈ (add_chunk W fuel ch req).events) :
    (add_chunk W fuel ch req).closed = true := by
  have hwr : ∀ (tids : List Int) (ctx : WriteContext) (cs : Nat),
      Event.commitReq t ∉ writeEvents tids ctx cs ∧
      Event.abortReq t ∉ writeEvents tids ctx cs := by
    intro tids ctx cs
    constructor <;> intro hmem <;>
      rcases writeEvents_only_writes tids ctx cs _ hmem with ⟨tb, htb⟩ <;> cases htb
  rcases add_chunk_shape W fuel ch req with ⟨st, heq⟩ |
    ⟨sid, seq, hs, hq, h0, hlen, hin, hgt, hle, hrest⟩
  · rw [heq] at h
    rcases h with h | h <;> exact absurd h (List.not_mem_nil _)
  · rcases hrest with ⟨st, hcw, heq⟩ | ⟨ctx, hcw, hcase⟩
    · rw [heq] at h
      rcases h with h | h <;> exact absurd h (List.not_mem_nil _)
    · rcases hcase with ⟨he, heq⟩ | ⟨he, hr, heq⟩ | ⟨he, hr, heq⟩
      · rw [heq] at h
        rcases h with h | h
        · exact absurd h (hwr _ _ _).1
        · exact absurd h (hwr _ _ _).2
      · rw [heq] at h
        rcases h with h | h
        · exact absurd h (hwr _ _ _).1
        · exact absurd h (hwr _ _ _).2
      · rw [heq]

theorem runResults_no_close_of_nonpos (W fuel : Nat) :
    ∀ (reqs : List Request) (ch : Channel), ch.num_remaining_senders ≤ 0 →
      ∀ res ∈ runResults W fuel ch reqs, res.closed = false
  | [], _, _, res, hres => absurd hres (List.not_mem_nil res)
  | r :: rs, ch, h, res, hres => by
    rcases List.mem_cons.mp hres with rfl | hres2
    · cases hcl : (add_chunk W fuel ch r).closed
      · rfl
      · have := (add_chunk_closed_spec W fuel ch r hcl).2.1
        omega
    · exact runResults_no_close_of_nonpos W fuel rs (add_chunk W fuel ch r).chan
        (le_trans (add_chunk_remaining_le W fuel ch r) h) res hres2

theorem runResults_closed_count (W fuel : Nat) :
    ∀ (reqs : List Request) (ch : Channel),
      ((runResults W fuel ch reqs).filter (fun r => r.closed)).length ≤ 1
  | [], _ => by simp [runResults]
  | r :: rs, ch => by
    simp only [runResults, List.filter_cons]
    cases hcl : (add_chunk W fuel ch r).closed
    · simp only [Bool.false_eq_true, if_false]
      exact runResults_closed_count W fuel rs _
    · simp only [if_true]
      have hrest : ∀ res ∈ runResults W fuel (add_chunk W fuel ch r).chan rs,
          res.closed = false :=
        runResults_no_close_of_nonpos W fuel rs _
          (le_of_eq (add_chunk_closed_spec W fuel ch r hcl).2.2)
      have hnil : (runResults W fuel (add_chunk W fuel ch r).chan rs).filter
          (fun res => res.closed) = [] := by
        rw [List.filter_eq_nil_iff]
        intro res hres
        simp [hrest res hres]
      rw [hnil]
      simp

/-- C4: (i) an `add_chunk` call issues a commit or abort request only
when it is the closing call: its request has the eos flag, the channel is
marked closed, the call observed `_num_remaining_senders = 1` and
decremented it to exactly `0`; (ii) a duplicate delivery of an eos batch
with a sequence number already in the receive window answers
`DUPLICATE_RPC_INVOCATION` and does not decrement the remaining-sender
count (the channel is unchanged); (iii) in every run, at most one call
closes the channel. -/
theorem close_sequence_once (W fuel : Nat) :
    (∀ (ch : Channel) (req : Request) (t : Int),
      (Event.commitReq t ∈ (add_chunk W fuel ch req).events ∨
       Event.abortReq t ∈ (add_chunk W fuel ch req).events) →
      req.eos = true ∧ (add_chunk W fuel ch req).closed = true ∧
      ch.num_remaining_senders = 1 ∧
      (add_chunk W fuel ch req).chan.num_remaining_senders = 0) ∧
    (∀ (ch : Channel) (req : Request) (sid seq : Int),
      req.sender_id = some sid → ¬sid < 0 → ¬ch.senders.length ≤ sid.toNat →
      req.packet_seq = some seq → req.eos = true →
      seq ∈ (ch.senders.getD sid.toNat Sender.init).receive_sliding_window →
      add_chunk W fuel ch req = ⟨.DUPLICATE_RPC_INVOCATION, ch, [], false⟩) ∧
    (∀ (ch : Channel) (reqs : List Request),
      ((runResults W fuel ch reqs).filter (fun r => r.closed)).length ≤ 1) := by
  refine ⟨fun ch req t h => ?_, fun ch req sid seq hs h0 hlen hq heos hin => ?_,
    fun ch reqs => runResults_closed_count W fuel reqs ch⟩
  · have hcl := add_chunk_commit_abort_closed W fuel ch req t h
    have hspec := add_chunk_closed_spec W fuel ch req hcl
    exact ⟨hspec.1, hcl, hspec.2.1, hspec.2.2⟩
  · simp only [add_chunk, hs, hq]
    rw [if_neg h0, if_neg hlen, if_pos hin, if_pos (Or.inr heos)]

/-- C4 witness: a closing call on a single-sender channel with one
primary writer commits and is the closing call; a duplicate eos replay is
rejected without a second decrement; a two-call run closes at most
once. -/
theorem close_sequence_once_witness :
    ((⟨some 0, some 0, true, [7], [], none⟩ : Request).eos = true ∧
      (add_chunk 4 0 (Channel.init [(10, ⟨7, false⟩)] 1)
          ⟨some 0, some 0, true, [7], [], none⟩).closed = true ∧
      (Channel.init [(10, ⟨7, false⟩)] 1).num_remaining_senders = 1 ∧
      (add_chunk 4 0 (Channel.init [(10, ⟨7, false⟩)] 1)
          ⟨some 0, some 0, true, [7], [], none⟩).chan.num_remaining_senders = 0) ∧
    add_chunk 4 0 (⟨[⟨{0}, ∅, -1⟩], 1, ∅, [], []⟩ : Channel)
        ⟨some 0, some 0, true, [], [], none⟩ =
      ⟨.DUPLICATE_RPC_INVOCATION, ⟨[⟨{0}, ∅, -1⟩], 1, ∅, [], []⟩, [], false⟩ ∧
    ((runResults 4 0 (Channel.init [(10, ⟨7, false⟩)] 1)
        [⟨some 0, some 0, true, [7], [], none⟩, ⟨some 0, some 1, true, [7], [], none⟩]).filter
          (fun r => r.closed)).length ≤ 1 := by
  refine ⟨(close_sequence_once 4 0).1 (Channel.init [(10, ⟨7, false⟩)] 1)
      ⟨some 0, some 0, true, [7], [], none⟩ 10 (Or.inl ?_),
    (close_sequence_once 4 0).2.1 (⟨[⟨{0}, ∅, -1⟩], 1, ∅, [], []⟩ : Channel)
      ⟨some 0, some 0, true, [], [], none⟩ 0 0 rfl (by decide) (by decide) rfl rfl (by decide),
    (close_sequence_once 4 0).2.2 (Channel.init [(10, ⟨7, false⟩)] 1)
      [⟨some 0, some 0, true, [7], [], none⟩, ⟨some 0, some 1, true, [7], [], none⟩]⟩
  decide

/-! ## Closing runs where every sender delivers its eos batch (C3) -/

theorem intToNat_natCast (k : Nat) : ((k : Int)).toNat = k := rfl

/-- One eos-only closing call from a fresh sender slot: it is accepted,
decrements the remaining-sender count, accumulates the request's
partition ids, and runs the commit/abort loop exactly when the decrement
reaches zero. -/
theorem add_chunk_eosReq (W fuel : Nat) (hW : 1 ≤ W) (ch : Channel) (k : Nat)
    (pids : List Int)
    (hfresh : ch.senders.getD k Sender.init = Sender.init)
    (hlen : k < ch.senders.length) :
    add_chunk W fuel ch (eosReq k pids) =
      if ch.num_remaining_senders - 1 = 0 then
        ⟨.OK, chFinal W fuel ch k 0 (ch.num_remaining_senders - 1)
            (ch.partition_ids ∪ pids.toFinset),
         closeEvents ch.delta_writers (ch.partition_ids ∪ pids.toFinset), true⟩
      else
        ⟨.OK, chFinal W fuel ch k 0 (ch.num_remaining_senders - 1)
            (ch.partition_ids ∪ pids.toFinset), [], false⟩ := by
  have h0 : ¬((k : Int) < 0) := by omega
  have hlen2 : ¬ch.senders.length ≤ ((k : Int)).toNat := not_le.mpr hlen
  simp only [add_chunk, eosReq]
  rw [if_neg h0, if_neg hlen2]
  simp only [intToNat_natCast, hfresh]
  rw [if_neg (show (0 : Int) ∉ Sender.init.receive_sliding_window by decide),
    if_neg (show ¬(0 : Int) ≤ Sender.init.last_sliding_packet_seq by decide),
    if_neg (show ¬Sender.init.last_sliding_packet_seq + (W : Int) < 0 by
      simp only [Sender.init]
      omega)]
  simp only [create_write_context, if_true]
  simp only [Option.isSome_none, Bool.false_eq_true, if_false, writeEvents,
    List.range_zero, List.filterMap_nil]
  by_cases hrem : ch.num_remaining_senders - 1 = 0
  · rw [if_pos hrem, if_pos hrem]
    rw [getD_set_self ch.senders k hlen]
    simp only [chFinal, chAfterAdmit, recvInsert, hfresh, List.nil_append]
  · rw [if_neg hrem, if_neg hrem]
    rw [getD_set_self ch.senders k hlen]
    simp only [chFinal, chAfterAdmit, recvInsert, hfresh, List.nil_append]

theorem getD_set_ne {α : Type _} (l : List α) (i j : Nat) (h : j ≠ i) (a d : α) :
    (l.set i a).getD j d = l.getD j d := by
  simp [List.getD_eq_getElem?_getD, List.getElem?_set_ne (Ne.symm h)]

/-- Running one eos-only closing call per remaining sender: every call
but the last is accepted with no writer requests and no close; the last
call closes the channel and runs the commit/abort loop against the union
of all the eos batches' partition ids. -/
theorem runEos_go (W fuel : Nat) (hW : 1 ≤ W) :
    ∀ (ps : List (List Int)) (ch : Channel) (k : Nat),
      ps ≠ [] →
      (∀ i, i < ps.length → ch.senders.getD (k + i) Sender.init = Sender.init) →
      k + ps.length ≤ ch.senders.length →
      ch.num_remaining_senders = (ps.length : Int) →
      (runEosCalls W fuel ch k ps).map (fun r => (r.status, r.events, r.closed)) =
        List.replicate (ps.length - 1) (TStatusCode.OK, ([] : List Event), false) ++
          [(TStatusCode.OK, closeEvents ch.delta_writers (ch.partition_ids ∪ unionPids ps),
            true)]
  | [], _, _, hne, _, _, _ => absurd rfl hne
  | [pids], ch, k, _, hfresh, hlen, hrem => by
    have hf0 : ch.senders.getD k Sender.init = Sender.init := by
      have h1 := hfresh 0 (by simp)
      rwa [Nat.add_zero] at h1
    simp only [runEosCalls]
    rw [add_chunk_eosReq W fuel hW ch k pids hf0
      (by simp only [List.length_cons, List.length_nil] at hlen; omega)]
    rw [if_pos (by rw [hrem]; simp)]
    simp only [List.map_cons, List.map_nil, List.length_cons, List.length_nil,
      List.replicate, List.nil_append, unionPids, Finset.union_empty]
  | pids :: p2 :: rest, ch, k, hne, hfresh, hlen, hrem => by
    have hf0 : ch.senders.getD k Sender.init = Sender.init := by
      have h1 := hfresh 0 (by simp)
      rwa [Nat.add_zero] at h1
    have hlenk : k < ch.senders.length := by
      simp only [List.length_cons] at hlen
      omega
    have hrem2 : ¬ch.num_remaining_senders - 1 = 0 := by
      rw [hrem]
      simp only [List.length_cons]
      omega
    simp only [runEosCalls]
    rw [add_chunk_eosReq W fuel hW ch k pids hf0 hlenk, if_neg hrem2]
    have IH := runEos_go W fuel hW (p2 :: rest)
      (chFinal W fuel ch k 0 (ch.num_remaining_senders - 1)
        (ch.partition_ids ∪ pids.toFinset)) (k + 1)
      (by simp)
      (by
        intro i hi
        simp only [chFinal, chAfterAdmit]
        rw [getD_set_ne _ _ _ (by omega), getD_set_ne _ _ _ (by omega)]
        have h2 := hfresh (1 + i) (by simp at hi ⊢; omega)
        rwa [← Nat.add_assoc] at h2)
      (by
        simp only [chFinal, chAfterAdmit, List.length_set]
        simp at hlen ⊢
        omega)
      (by
        simp only [chFinal]
        rw [hrem]
        simp only [List.length_cons]
        push_cast
        omega)
    simp only [runEosCalls, List.map_cons] at IH
    simp only [List.map_cons]
    rw [IH]
    simp only [chFinal, List.length_cons, unionPids]
    rw [Finset.union_assoc]
    rw [show (rest.length + 1 + 1) - 1 = rest.length + 1 from rfl]
    rw [show (List.replicate (rest.length + 1) (TStatusCode.OK, ([] : List Event), false)) =
      (TStatusCode.OK, ([] : List Event), false) ::
        List.replicate (rest.length + 1 - 1) (TStatusCode.OK, ([] : List Event), false)
      from rfl]
    simp

theorem key_unique :
    ∀ (l : List (Int × DeltaWriter)) (t : Int) (a b : DeltaWriter),
      (l.map Prod.fst).Nodup → (t, a) ∈ l → (t, b) ∈ l → a = b
  | [], _, _, _, _, ha, _ => absurd ha (List.not_mem_nil _)
  | (t0, w0) :: rest, t, a, b, hnd, ha, hb => by
    simp only [List.map_cons, List.nodup_cons] at hnd
    rcases List.mem_cons.mp ha with h1 | h1 <;> rcases List.mem_cons.mp hb with h2 | h2
    · injection h1 with _ hw1
      injection h2 with _ hw2
      rw [hw1, hw2]
    · injection h1 with ht1 _
      exact absurd (ht1 ▸ List.mem_map_of_mem Prod.fst h2) hnd.1
    · injection h2 with ht2 _
      exact absurd (ht2 ▸ List.mem_map_of_mem Prod.fst h1) hnd.1
    · exact key_unique rest t a b hnd.2 h1 h2

/-- Membership in the commit/abort request list of the close loop, for a
writer map with distinct tablet ids: a non-secondary writer receives a
commit exactly when its partition id was touched and an abort exactly
when it was not; a secondary writer receives neither. -/
theorem closeEvents_mem_spec (writers : List (Int × DeltaWriter)) (P : Finset Int)
    (t : Int) (w : DeltaWriter) (hnd : (writers.map Prod.fst).Nodup)
    (hmem : (t, w) ∈ writers) :
    (Event.commitReq t ∈ closeEvents writers P ↔
      w.is_secondary = false ∧ w.partition_id ∈ P) ∧
    (Event.abortReq t ∈ closeEvents writers P ↔
      w.is_secondary = false ∧ w.partition_id ∉ P) := by
  constructor
  · constructor
    · intro h
      rcases List.mem_filterMap.mp h with ⟨tw, htw, hf⟩
      obtain ⟨t1, w1⟩ := tw
      dsimp only at hf
      by_cases hsec : w1.is_secondary
      · rw [if_pos hsec] at hf
        exact absurd hf (by simp)
      · rw [if_neg hsec] at hf
        by_cases hp : w1.partition_id ∉ P
        · rw [if_pos hp] at hf
          exact absurd hf (by simp)
        · rw [if_neg hp] at hf
          have h2 := Option.some.inj hf
          have ht : t1 = t := by injection h2
          subst ht
          have hw := key_unique writers t1 w1 w hnd htw hmem
          subst hw
          exact ⟨by simpa using hsec, not_not.mp hp⟩
    · rintro ⟨hsec, hp⟩
      refine List.mem_filterMap.mpr ⟨(t, w), hmem, ?_⟩
      dsimp only
      rw [if_neg (by simp [hsec]), if_neg (not_not_intro hp)]
  · constructor
    · intro h
      rcases List.mem_filterMap.mp h with ⟨tw, htw, hf⟩
      obtain ⟨t1, w1⟩ := tw
      dsimp only at hf
      by_cases hsec : w1.is_secondary
      · rw [if_pos hsec] at hf
        exact absurd hf (by simp)
      · rw [if_neg hsec] at hf
        by_cases hp : w1.partition_id ∉ P
        · rw [if_pos hp] at hf
          have h2 := Option.some.inj hf
          have ht : t1 = t := by injection h2
          subst ht
          have hw := key_unique writers t1 w1 w hnd htw hmem
          subst hw
          exact ⟨by simpa using hsec, hp⟩
        · rw [if_neg hp] at hf
          exact absurd hf (by simp)
    · rintro ⟨hsec, hp⟩
      refine List.mem_filterMap.mpr ⟨(t, w), hmem, ?_⟩
      dsimp only
      rw [if_neg (by simp [hsec]), if_pos hp]

theorem getD_replicate {α : Type _} (n i : Nat) (a : α) :
    (List.replicate n a).getD i a = a := by
  by_cases h : i < n
  · rw [List.getD_eq_getElem _ _ (by simpa using h)]
    exact List.getElem_replicate a _
  · exact List.getD_eq_default _ _ (by simpa using not_lt.mp h)

/-- C3 counterexample: a channel with a single tablet writer whose
replica state is Secondary (tablet 10, partition 7) and one sender; the
sender's eos batch touches partition 7.  The channel closes and partition
7 is in the recorded union, yet neither a commit nor an abort is issued
to the writer — the claim's "commit iff touched, abort otherwise, for
every tablet writer" fails on secondary-replica writers. -/
theorem close_skips_secondary_counterexample :
    (add_chunk 4 0 (Channel.init [(10, ⟨7, true⟩)] 1)
        ⟨some 0, some 0, true, [7], [], none⟩).closed = true ∧
    (7 : Int) ∈ (add_chunk 4 0 (Channel.init [(10, ⟨7, true⟩)] 1)
        ⟨some 0, some 0, true, [7], [], none⟩).chan.partition_ids ∧
    Event.commitReq 10 ∉ (add_chunk 4 0 (Channel.init [(10, ⟨7, true⟩)] 1)
        ⟨some 0, some 0, true, [7], [], none⟩).events ∧
    Event.abortReq 10 ∉ (add_chunk 4 0 (Channel.init [(10, ⟨7, true⟩)] 1)
        ⟨some 0, some 0, true, [7], [], none⟩).events := by
  decide

/-- C3 (amended): after every sender has delivered its eos batch, for
every tablet writer whose replica state is not Secondary, commit is
issued to it iff its partition id is in the union of the partition ids
recorded from all senders' eos batches, and abort is issued to it
otherwise; writers in the Secondary replica state are issued neither
(they are committed through their primary replica).  Commit/abort
requests are issued only by the last closing call. -/
theorem close_commit_iff_partition_touched (W fuel : Nat) (hW : 1 ≤ W)
    (writers : List (Int × DeltaWriter)) (hnd : (writers.map Prod.fst).Nodup)
    (ps : List (List Int)) (hps : ps ≠ []) :
    (runEosCalls W fuel (Channel.init writers ps.length) 0 ps).map
        (fun r => (r.status, r.events, r.closed)) =
      List.replicate (ps.length - 1) (TStatusCode.OK, ([] : List Event), false) ++
        [(TStatusCode.OK, closeEvents writers (unionPids ps), true)] ∧
    ∀ (t : Int) (w : DeltaWriter), (t, w) ∈ writers →
      (w.is_secondary = false →
        ((Event.commitReq t ∈ closeEvents writers (unionPids ps) ↔
            w.partition_id ∈ unionPids ps) ∧
         (Event.abortReq t ∈ closeEvents writers (unionPids ps) ↔
            w.partition_id ∉ unionPids ps))) ∧
      (w.is_secondary = true →
        Event.commitReq t ∉ closeEvents writers (unionPids ps) ∧
        Event.abortReq t ∉ closeEvents writers (unionPids ps)) := by
  constructor
  · have h := runEos_go W fuel hW ps (Channel.init writers ps.length) 0 hps
      (fun i _ => getD_replicate ps.length (0 + i) Sender.init)
      (by simp [Channel.init])
      (by simp [Channel.init])
    rw [h]
    simp only [Channel.init, Finset.empty_union]
  · intro t w hmem
    have hspec := closeEvents_mem_spec writers (unionPids ps) t w hnd hmem
    constructor
    · intro hsec
      constructor
      · rw [hspec.1]
        simp [hsec]
      · rw [hspec.2]
        simp [hsec]
    · intro hsec
      constructor
      · intro hcon
        have h2 := hspec.1.mp hcon
        rw [hsec] at h2
        cases h2.1
      · intro hcon
        have h2 := hspec.2.mp hcon
        rw [hsec] at h2
        cases h2.1

/-- C3 witness: two writers (tablet 10 on partition 7, primary; tablet
11 on partition 9, secondary) and two senders touching partitions 7 and
8: the run closes on the second call only, tablet 10 is committed
(7 is touched), and tablet 11 receives nothing. -/
theorem close_commit_iff_partition_touched_witness :
    ((runEosCalls 4 0 (Channel.init [(10, ⟨7, false⟩), (11, ⟨9, true⟩)] 2) 0 [[7], [8]]).map
        (fun r => (r.status, r.events, r.closed)) =
      List.replicate 1 (TStatusCode.OK, ([] : List Event), false) ++
        [(TStatusCode.OK,
          closeEvents [(10, ⟨7, false⟩), (11, ⟨9, true⟩)] (unionPids [[7], [8]]), true)]) ∧
    (Event.commitReq 10 ∈
        closeEvents [(10, ⟨7, false⟩), (11, ⟨9, true⟩)] (unionPids [[7], [8]]) ↔
      (7 : Int) ∈ unionPids [[7], [8]]) ∧
    (Event.commitReq 11 ∉
        closeEvents [(10, ⟨7, false⟩), (11, ⟨9, true⟩)] (unionPids [[7], [8]]) ∧
     Event.abortReq 11 ∉
        closeEvents [(10, ⟨7, false⟩), (11, ⟨9, true⟩)] (unionPids [[7], [8]])) := by
  have h := close_commit_iff_partition_touched 4 0 (by decide)
    [(10, ⟨7, false⟩), (11, ⟨9, true⟩)] (by decide) [[7], [8]] (by decide)
  exact ⟨h.1, ((h.2 10 ⟨7, false⟩ (by decide)).1 rfl).1,
    (h.2 11 ⟨9, true⟩ (by decide)).2 rfl⟩

/-! ## Scatter correctness (C1): counting lemmas -/

theorem cntEqBelow_zero (ord : Nat → Nat) (c : Nat) : cntEqBelow ord 0 c = 0 := rfl

theorem cntEqBelow_succ (ord : Nat → Nat) (m c : Nat) :
    cntEqBelow ord (m + 1) c = cntEqBelow ord m c + (if ord m = c then 1 else 0) := by
  unfold cntEqBelow
  rw [List.range_succ, List.filter_append, List.length_append]
  congr 1
  by_cases h : ord m = c
  · simp [h]
  · simp [h]

theorem countPass_eq (ord : Nat → Nat) : ∀ n c, countPass ord n c = cntEqBelow ord n c
  | 0, c => rfl
  | n + 1, c => by
    have IH := countPass_eq ord n
    simp only [countPass, upd, cntEqBelow_succ]
    by_cases h : c = ord n
    · rw [if_pos h, if_pos h.symm, IH, h]
    · rw [if_neg h, if_neg (Ne.symm h), IH, Nat.add_zero]

theorem cntLt_zero (ord : Nat → Nat) (n : Nat) : cntLt ord n 0 = 0 := by
  unfold cntLt
  rw [List.filter_eq_nil_iff.mpr]
  · rfl
  · intro a _
    simp

theorem cntLt_succ (ord : Nat → Nat) :
    ∀ n c, cntLt ord n (c + 1) = cntLt ord n c + cntEqBelow ord n c
  | 0, c => rfl
  | n + 1, c => by
    have IH := cntLt_succ ord n c
    unfold cntLt at IH ⊢
    rw [List.range_succ, List.filter_append, List.filter_append, List.length_append,
      List.length_append, cntEqBelow_succ, IH]
    by_cases h1 : ord n < c
    · have h2 : ord n < c + 1 := by omega
      have h3 : ¬ord n = c := by omega
      simp [h1, h2, h3]
      omega
    · by_cases h2 : ord n = c
      · have h3 : ord n < c + 1 := by omega
        simp [h1, h2, h3]
        omega
      · have h3 : ¬ord n < c + 1 := by omega
        simp [h1, h2, h3]

theorem cntEqBelow_mono (ord : Nat → Nat) (c : Nat) :
    ∀ {m m2 : Nat}, m ≤ m2 → cntEqBelow ord m c ≤ cntEqBelow ord m2 c := by
  intro m m2 h
  induction h with
  | refl => exact le_refl _
  | step h2 ih =>
    rw [cntEqBelow_succ]
    omega

theorem cntLt_mono (ord : Nat → Nat) (n : Nat) :
    ∀ {c c2 : Nat}, c ≤ c2 → cntLt ord n c ≤ cntLt ord n c2 := by
  intro c c2 h
  induction h with
  | refl => exact le_refl _
  | step h2 ih =>
    rw [cntLt_succ]
    omega

theorem cntLt_full (ord : Nat → Nat) (n cs : Nat) (hord : ∀ i < n, ord i < cs) :
    cntLt ord n cs = n := by
  unfold cntLt
  rw [List.filter_eq_self.mpr]
  · exact List.length_range n
  · intro a ha
    simp only [decide_eq_true_eq]
    exact hord a (List.mem_range.mp ha)

theorem prefixPass_gt (sp : Nat → Nat) : ∀ (k j : Nat), k < j → prefixPass sp k j = sp j
  | 0, _, _ => rfl
  | k + 1, j, h => by
    simp only [prefixPass, upd]
    rw [if_neg (by omega)]
    exact prefixPass_gt sp k j (by omega)

theorem prefixPass_le (sp : Nat → Nat) :
    ∀ (k j : Nat), j ≤ k → prefixPass sp k j = ∑ t ∈ Finset.range (j + 1), sp t
  | 0, j, h => by
    have hj : j = 0 := by omega
    subst hj
    simp [prefixPass]
  | k + 1, j, h => by
    simp only [prefixPass, upd]
    by_cases hj : j = k + 1
    · rw [if_pos hj, hj]
      rw [prefixPass_gt sp k (k + 1) (by omega), prefixPass_le sp k k (le_refl k)]
      rw [Finset.sum_range_succ sp (k + 1)]
      omega
    · rw [if_neg hj]
      exact prefixPass_le sp k j (by omega)

theorem sum_cntEqBelow (ord : Nat → Nat) (n : Nat) :
    ∀ c, (∑ t ∈ Finset.range (c + 1), cntEqBelow ord n t) = cntLt ord n (c + 1)
  | 0 => by
    rw [Finset.sum_range_one, cntLt_succ, cntLt_zero, Nat.zero_add]
  | c + 1 => by
    rw [Finset.sum_range_succ, sum_cntEqBelow ord n c, cntLt_succ ord n (c + 1)]

/-- After the prefix-sum pass, index `c ≤ channel_size` holds the number
of rows whose ordinal is at most `c`. -/
theorem initSp_spec (ord : Nat → Nat) (n cs : Nat) :
    ∀ c, c ≤ cs → prefixPass (countPass ord n) cs c = cntLt ord n c + cntEqBelow ord n c := by
  intro c hc
  rw [prefixPass_le _ _ _ hc]
  rw [Finset.sum_congr rfl fun t _ => countPass_eq ord n t]
  rw [sum_cntEqBelow ord n c, cntLt_succ]

theorem rank_lt_cntLt_succ (ord : Nat → Nat) (n i : Nat) (hi : i < n) :
    rank ord n i < cntLt ord n (ord i + 1) := by
  rw [cntLt_succ]
  unfold rank
  have h2 : cntEqBelow ord (i + 1) (ord i) = cntEqBelow ord i (ord i) + 1 := by
    rw [cntEqBelow_succ]
    simp
  have h3 := cntEqBelow_mono ord (ord i) (show i + 1 ≤ n by omega)
  omega

theorem cntLt_le_rank (ord : Nat → Nat) (n i : Nat) : cntLt ord n (ord i) ≤ rank ord n i :=
  Nat.le_add_right _ _

theorem rank_lt_n (ord : Nat → Nat) (n cs i : Nat) (hord : ∀ i2 < n, ord i2 < cs)
    (hi : i < n) : rank ord n i < n := by
  have h1 := rank_lt_cntLt_succ ord n i hi
  have h2 : cntLt ord n (ord i + 1) ≤ cntLt ord n cs := cntLt_mono ord n (hord i hi)
  rw [cntLt_full ord n cs hord] at h2
  omega

theorem rank_lt_rank_same (ord : Nat → Nat) (n i j : Nat) (hij : i < j) (hc : ord i = ord j) :
    rank ord n i < rank ord n j := by
  unfold rank
  rw [hc]
  have h2 : cntEqBelow ord (i + 1) (ord j) = cntEqBelow ord i (ord j) + 1 := by
    rw [cntEqBelow_succ]
    simp [hc]
  have h3 := cntEqBelow_mono ord (ord j) (show i + 1 ≤ j by omega)
  omega

theorem rank_lt_rank_diff (ord : Nat → Nat) (n i j : Nat) (hi : i < n) (hc : ord i < ord j) :
    rank ord n i < rank ord n j := by
  have h1 := rank_lt_cntLt_succ ord n i hi
  have h2 : cntLt ord n (ord i + 1) ≤ cntLt ord n (ord j) := cntLt_mono ord n hc
  have h3 := cntLt_le_rank ord n j
  omega

theorem rank_injOn (ord : Nat → Nat) (n : Nat) :
    ∀ i j, i < n → j < n → rank ord n i = rank ord n j → i = j := by
  intro i j hi hj heq
  rcases lt_trichotomy i j with h | h | h
  · exfalso
    rcases lt_trichotomy (ord i) (ord j) with hc | hc | hc
    · exact absurd heq (ne_of_lt (rank_lt_rank_diff ord n i j hi hc))
    · exact absurd heq (ne_of_lt (rank_lt_rank_same ord n i j h hc))
    · exact absurd heq (ne_of_gt (rank_lt_rank_diff ord n j i hj hc))
  · exact h
  · exfalso
    rcases lt_trichotomy (ord i) (ord j) with hc | hc | hc
    · exact absurd heq (ne_of_lt (rank_lt_rank_diff ord n i j hi hc))
    · exact absurd heq (ne_of_gt (rank_lt_rank_same ord n j i h hc.symm))
    · exact absurd heq (ne_of_gt (rank_lt_rank_diff ord n j i hj hc))

/-- The invariant of the reverse scatter loop: processing rows
`m-1 .. 0` from a state where index `c` of the start-point buffer holds
`cntLt c + cntEqBelow m c` and every already-processed row sits at its
rank, the loop ends with the start points at `cntLt` and every row at its
rank. -/
theorem scatterPass_spec (ord : Nat → Nat) (n cs : Nat) (hord : ∀ i < n, ord i < cs) :
    ∀ (m : Nat), m ≤ n → ∀ (ri sp : Nat → Nat),
      (∀ c, c ≤ cs → sp c = cntLt ord n c + cntEqBelow ord m c) →
      (∀ i, m ≤ i → i < n → ri (rank ord n i) = i) →
      (∀ c, c ≤ cs → (scatterPass ord m (ri, sp)).2 c = cntLt ord n c) ∧
      (∀ i, i < n → (scatterPass ord m (ri, sp)).1 (rank ord n i) = i)
  | 0, _, ri, sp, hsp, hri => by
    constructor
    · intro c hc
      simp only [scatterPass]
      rw [hsp c hc, cntEqBelow_zero, Nat.add_zero]
    · intro i hi
      simp only [scatterPass]
      exact hri i (Nat.zero_le i) hi
  | m + 1, hm, ri, sp, hsp, hri => by
    have hmn : m < n := by omega
    have hcm : ord m ≤ cs := le_of_lt (hord m hmn)
    have hspm : sp (ord m) = cntLt ord n (ord m) + cntEqBelow ord m (ord m) + 1 := by
      rw [hsp (ord m) hcm, cntEqBelow_succ, if_pos rfl]
      omega
    have hpos : sp (ord m) - 1 = rank ord n m := by
      rw [hspm]
      unfold rank
      omega
    simp only [scatterPass]
    apply scatterPass_spec ord n cs hord m (by omega)
    · intro c hc
      simp only [upd]
      by_cases h : c = ord m
      · subst h
        rw [if_pos rfl, hspm]
        omega
      · rw [if_neg h, hsp c hc, cntEqBelow_succ, if_neg (fun hh => h hh.symm), Nat.add_zero]
    · intro i hmi hin
      simp only [upd]
      by_cases h : i = m
      · subst h
        rw [if_pos hpos.symm]
      · rw [if_neg (fun heq => h (rank_injOn ord n i m hin hmn (heq.trans hpos)))]
        exact hri i (by omega) hin

/-- The final state of `_create_write_context`'s passes: the start-point
buffer holds the `cntLt` prefix counts, and every row `i` sits at
position `rank i` of the row-index buffer. -/
theorem scatterResult_spec (ord : Nat → Nat) (n cs : Nat) (hord : ∀ i < n, ord i < cs) :
    (∀ c, c ≤ cs →
      (scatterPass ord n (fun _ => 0, prefixPass (countPass ord n) cs)).2 c = cntLt ord n c) ∧
    (∀ i, i < n →
      (scatterPass ord n (fun _ => 0, prefixPass (countPass ord n) cs)).1 (rank ord n i) = i) :=
  scatterPass_spec ord n cs hord n (le_refl n) _ _
    (fun c hc => initSp_spec ord n cs c hc)
    (fun i hi hin => absurd hin (by omega))

/-- The `k`-th element of `filter p (range n)` has exactly `k` smaller
indexes satisfying `p`. -/
theorem filter_range_getElem (p : Nat → Bool) :
    ∀ (n k x : Nat), ((List.range n).filter p)[k]? = some x →
      ((List.range x).filter p).length = k
  | 0, k, x, h => by simp at h
  | n + 1, k, x, h => by
    rw [List.range_succ, List.filter_append] at h
    by_cases hk : k < ((List.range n).filter p).length
    · rw [List.getElem?_append_left hk] at h
      exact filter_range_getElem p n k x h
    · rw [List.getElem?_append_right (not_lt.mp hk)] at h
      by_cases hp : p n
      · simp only [List.filter_cons, hp, if_true, List.filter_nil] at h
        have hlt : k - ((List.range n).filter p).length < 1 := by
          by_contra hge
          rw [List.getElem?_eq_none (by simpa using not_lt.mp hge)] at h
          cases h
        have h0 : k - ((List.range n).filter p).length = 0 := by omega
        rw [h0] at h
        simp only [List.getElem?_cons_zero, Option.some.injEq] at h
        subst h
        omega
      · simp only [List.filter_cons, hp] at h
        simp at h

theorem scatter_segment (ord : Nat → Nat) (n cs : Nat) (hord : ∀ i < n, ord i < cs)
    (c : Nat) (_hc : c < cs) :
    (List.range (cntLt ord n (c + 1) - cntLt ord n c)).map
        (fun k => (scatterPass ord n (fun _ => 0, prefixPass (countPass ord n) cs)).1
          (cntLt ord n c + k)) =
      (List.range n).filter (fun i => ord i = c) := by
  have hri := (scatterResult_spec ord n cs hord).2
  have hsub : cntLt ord n (c + 1) - cntLt ord n c = cntEqBelow ord n c := by
    rw [cntLt_succ]
    omega
  have hlenL : ((List.range n).filter (fun i => ord i = c)).length = cntEqBelow ord n c := rfl
  apply List.ext_get
  · simp only [List.length_map, List.length_range, hsub, hlenL]
  · intro k h1 h2
    have hL : ((List.range n).filter (fun i => ord i = c))[k]? =
        some (((List.range n).filter (fun i => ord i = c)).get ⟨k, h2⟩) := by
      rw [List.get_eq_getElem, List.getElem?_eq_getElem h2]
    have hmem := List.get_mem ((List.range n).filter (fun i => ord i = c)) k h2
    rw [List.mem_filter, List.mem_range] at hmem
    obtain ⟨hxn, hxc⟩ := hmem
    have hxc2 : ord (((List.range n).filter (fun i => ord i = c)).get ⟨k, h2⟩) = c := by
      simpa using hxc
    have hkrank := filter_range_getElem (fun i => ord i = c) n k _ hL
    have hrank : rank ord n (((List.range n).filter (fun i => ord i = c)).get ⟨k, h2⟩) =
        cntLt ord n c + k := by
      unfold rank cntEqBelow
      rw [hxc2, hkrank]
    rw [List.get_eq_getElem, List.getElem_map, List.getElem_range]
    rw [List.get_eq_getElem] at hrank ⊢
    rw [← hrank]
    exact hri _ hxn

theorem filter_or_perm (l : List Nat) (p q : Nat → Bool)
    (hdisj : ∀ a, ¬(p a = true ∧ q a = true)) :
    (l.filter fun a => p a || q a).Perm (l.filter p ++ l.filter q) := by
  induction l with
  | nil => simp
  | cons a t ih =>
    by_cases hp : p a = true
    · have hq : ¬q a = true := fun hq => hdisj a ⟨hp, hq⟩
      simp only [List.filter_cons, hp, hq, Bool.true_or, if_true, if_false, Bool.false_eq_true]
      simp only [List.cons_append]
      exact ih.cons a
    · by_cases hq : q a = true
      · simp only [List.filter_cons, hp, hq, Bool.false_or, if_true, if_false,
          Bool.false_eq_true]
        exact (ih.cons a).trans List.perm_middle.symm
      · simp only [List.filter_cons, hp, hq, Bool.false_or, if_false, Bool.false_eq_true]
        exact ih

theorem flatMap_congr_mem {α β : Type _} :
    ∀ (l : List α) (f g : α → List β), (∀ a ∈ l, f a = g a) → l.flatMap f = l.flatMap g
  | [], _, _, _ => rfl
  | a :: t, f, g, h => by
    simp only [List.flatMap_cons]
    rw [h a (List.mem_cons_self a t),
      flatMap_congr_mem t f g fun b hb => h b (List.mem_cons_of_mem a hb)]

theorem classes_perm (ord : Nat → Nat) (n : Nat) :
    ∀ cs, ((List.range cs).flatMap fun c => (List.range n).filter (fun i => ord i = c)).Perm
      ((List.range n).filter (fun i => ord i < cs))
  | 0 => by
    simp only [List.range_zero, List.flatMap_nil]
    rw [List.filter_eq_nil_iff.mpr]
    intro a _
    simp
  | cs + 1 => by
    rw [List.range_succ, List.flatMap_append, List.flatMap_cons, List.flatMap_nil,
      List.append_nil]
    have hcong : (List.range n).filter (fun i => ord i < cs + 1) =
        (List.range n).filter (fun i => (decide (ord i < cs) || decide (ord i = cs))) := by
      apply List.filter_congr
      intro x _
      by_cases h1 : ord x < cs
      · have h2 : ord x < cs + 1 := by omega
        simp [h1, h2]
      · by_cases h2 : ord x = cs
        · have h3 : ord x < cs + 1 := by omega
          simp [h1, h2, h3]
        · have h3 : ¬ord x < cs + 1 := by omega
          simp [h1, h2, h3]
    rw [hcong]
    exact ((classes_perm ord n cs).append_right _).trans
      (filter_or_perm (List.range n) (fun i => decide (ord i < cs))
        (fun i => decide (ord i = cs)) fun a ha => by
          obtain ⟨ha1, ha2⟩ := ha
          simp only [decide_eq_true_eq] at ha1 ha2
          omega).symm

theorem flatMap_range'_boundaries (b : Nat → Nat) :
    ∀ cs, b 0 = 0 → (∀ c, c < cs → b c ≤ b (c + 1)) →
      ((List.range cs).flatMap fun c => List.range' (b c) (b (c + 1) - b c)) =
        List.range' 0 (b cs)
  | 0, h0, _ => by simp [h0]
  | cs + 1, h0, hmono => by
    rw [List.range_succ, List.flatMap_append, List.flatMap_cons, List.flatMap_nil,
      List.append_nil]
    rw [flatMap_range'_boundaries b cs h0 fun c hc => hmono c (by omega)]
    have hle := hmono cs (by omega)
    have h1 : b cs = 0 + 1 * b cs := by omega
    have h2 : b (cs + 1) = (b (cs + 1) - b cs) + b cs := by omega
    calc List.range' 0 (b cs) ++ List.range' (b cs) (b (cs + 1) - b cs)
        = List.range' 0 (b cs) ++ List.range' (0 + 1 * b cs) (b (cs + 1) - b cs) 1 := by
          rw [← h1]
      _ = List.range' 0 ((b (cs + 1) - b cs) + b cs) := List.range'_append 0 (b cs) _ 1
      _ = List.range' 0 (b (cs + 1)) := by rw [← h2]

theorem scatter_perm (ord : Nat → Nat) (n cs : Nat) (hord : ∀ i < n, ord i < cs) :
    ((List.range n).map
        (scatterPass ord n (fun _ => 0, prefixPass (countPass ord n) cs)).1).Perm
      (List.range n) := by
  have hb0 : cntLt ord n 0 = 0 := cntLt_zero ord n
  have hbcs : cntLt ord n cs = n := cntLt_full ord n cs hord
  have hmono : ∀ c, c < cs → cntLt ord n c ≤ cntLt ord n (c + 1) := fun c _ =>
    cntLt_mono ord n (Nat.le_succ c)
  have hflat : ((List.range cs).flatMap fun c =>
      List.range' (cntLt ord n c) (cntLt ord n (c + 1) - cntLt ord n c)) =
      List.range' 0 n := by
    rw [flatMap_range'_boundaries (cntLt ord n) cs hb0 hmono, hbcs]
  have hchain : (List.range n).map
      (scatterPass ord n (fun _ => 0, prefixPass (countPass ord n) cs)).1 =
      (List.range cs).flatMap fun c => (List.range n).filter (fun i => ord i = c) := by
    conv_lhs => rw [List.range_eq_range' n, ← hflat, List.map_flatMap]
    apply flatMap_congr_mem
    intro c hc
    rw [List.range'_eq_map_range, List.map_map, ← scatter_segment ord n cs hord c
      (List.mem_range.mp hc)]
    rfl
  rw [hchain]
  refine (classes_perm ord n cs).trans ?_
  rw [List.filter_eq_self.mpr]
  intro a ha
  simp only [decide_eq_true_eq]
  exact hord a (List.mem_range.mp ha)

theorem indexInSorted_lt_length :
    ∀ (l : List Int) (id : Int) (j : Nat), indexInSorted l id = some j → j < l.length
  | [], _, _, h => by cases h
  | x :: xs, id, j, h => by
    unfold indexInSorted at h
    by_cases hx : x = id
    · rw [if_pos hx] at h
      injection h with h
      simp only [List.length_cons]
      omega
    · rw [if_neg hx] at h
      cases hj : indexInSorted xs id with
      | none => rw [hj] at h; cases h
      | some j2 =>
        rw [hj] at h
        have h2 : j2 + 1 = j := by simpa using h
        have h3 := indexInSorted_lt_length xs id j2 hj
        simp only [List.length_cons]
        omega

/-- When every per-row tablet id is present in the sorted tablet index
and the tablet ids of the channel are distinct, every row ordinal is
below the channel size. -/
theorem chunkOrd_lt (tablets tabletIds : List Int) (hnd : tablets.Nodup)
    (hpres : ∀ id ∈ tabletIds, (tabletIdToSortedIndex tablets id).isSome) :
    ∀ i, i < tabletIds.length → chunkOrd tablets tabletIds i < channelSize tablets := by
  intro i hi
  have hmem : tabletIds.getD i 0 ∈ tabletIds := getD_mem tabletIds i hi 0
  obtain ⟨j, hj⟩ := Option.isSome_iff_exists.mp (hpres _ hmem)
  have hlt := indexInSorted_lt_length _ _ _ hj
  have hlen : (sortedTabletIds tablets).length = tablets.length :=
    (List.perm_insertionSort (· ≤ ·) tablets).length_eq
  have hcs : channelSize tablets = tablets.length := by
    unfold channelSize
    exact List.toFinset_card_of_nodup hnd
  unfold chunkOrd
  rw [hj]
  simp only [Option.getD_some]
  omega

/-- C1: for a batch whose per-row tablet ids are all present in the
sorted tablet index (and distinct channel tablet ids),
`_create_write_context` succeeds and its write context satisfies:
`row_indexes` restricted to `[0, rowCount)` is a permutation of
`[0, rowCount)`; the boundaries start at `0` and end at `rowCount`; and
for each ordinal `c` the sub-range
`row_indexes[boundaries c .. boundaries (c+1))` equals exactly the list
of rows whose tablet id has ordinal `c`, in increasing original batch
order (the increasing filter of the row range). -/
theorem create_write_context_stable_scatter
    (tablets tabletIds : List Int) (rows : Nat) (eos : Bool)
    (hnd : tablets.Nodup)
    (hrows : tabletIds.length = rows)
    (hpres : ∀ id ∈ tabletIds, (tabletIdToSortedIndex tablets id).isSome) :
    ∃ ctx, create_write_context tablets tabletIds (some rows) eos = .ok ctx ∧
      ((List.range tabletIds.length).map ctx.row_indexes).Perm
        (List.range tabletIds.length) ∧
      ctx.channel_row_idx_start_points 0 = 0 ∧
      ctx.channel_row_idx_start_points (channelSize tablets) = tabletIds.length ∧
      ∀ c, c < channelSize tablets →
        (List.range (ctx.channel_row_idx_start_points (c + 1) -
            ctx.channel_row_idx_start_points c)).map
          (fun k => ctx.row_indexes (ctx.channel_row_idx_start_points c + k)) =
        (List.range tabletIds.length).filter
          (fun i => chunkOrd tablets tabletIds i = c) := by
  have hord := chunkOrd_lt tablets tabletIds hnd hpres
  have hsp := (scatterResult_spec (chunkOrd tablets tabletIds) tabletIds.length
    (channelSize tablets) hord).1
  refine ⟨⟨(scatterPass (chunkOrd tablets tabletIds) tabletIds.length
      (fun _ => 0, prefixPass (countPass (chunkOrd tablets tabletIds) tabletIds.length)
        (channelSize tablets))).1,
    (scatterPass (chunkOrd tablets tabletIds) tabletIds.length
      (fun _ => 0, prefixPass (countPass (chunkOrd tablets tabletIds) tabletIds.length)
        (channelSize tablets))).2⟩, ?_, ?_, ?_, ?_, ?_⟩
  · simp only [create_write_context]
    rw [if_neg (not_not_intro hrows)]
  · exact scatter_perm (chunkOrd tablets tabletIds) tabletIds.length (channelSize tablets) hord
  · dsimp only
    rw [hsp 0 (Nat.zero_le _), cntLt_zero]
  · dsimp only
    rw [hsp (channelSize tablets) (le_refl _),
      cntLt_full (chunkOrd tablets tabletIds) tabletIds.length (channelSize tablets) hord]
  · intro c hc
    dsimp only
    rw [hsp c (le_of_lt hc), hsp (c + 1) hc]
    exact scatter_segment (chunkOrd tablets tabletIds) tabletIds.length (channelSize tablets)
      hord c hc

/-- C1 witness: the concrete batch of the spec scenario. -/
theorem create_write_context_stable_scatter_witness :
    ∃ ctx, create_write_context [5, 2, 8] [5, 2, 5, 8] (some 4) false = .ok ctx ∧
      ((List.range ([5, 2, 5, 8] : List Int).length).map ctx.row_indexes).Perm
        (List.range ([5, 2, 5, 8] : List Int).length) ∧
      ctx.channel_row_idx_start_points 0 = 0 ∧
      ctx.channel_row_idx_start_points (channelSize [5, 2, 8]) =
        ([5, 2, 5, 8] : List Int).length ∧
      ∀ c, c < channelSize [5, 2, 8] →
        (List.range (ctx.channel_row_idx_start_points (c + 1) -
            ctx.channel_row_idx_start_points c)).map
          (fun k => ctx.row_indexes (ctx.channel_row_idx_start_points c + k)) =
        (List.range ([5, 2, 5, 8] : List Int).length).filter
          (fun i => chunkOrd [5, 2, 8] [5, 2, 5, 8] i = c) :=
  create_write_context_stable_scatter [5, 2, 8] [5, 2, 5, 8] 4 false
    (by decide) (by decide) (by decide)

end LocalTabletsChannel
